import Mathlib

/-!
Verification of the InterstellarIntelligence planning engine.

This file shallowly embeds the core of the engine (matrix primitives,
environment model, time policy, thrust action model, quantizer, graph
solver and the reference simulation facade) into Lean, translating each
C++ function from the repository sources, and proves or refutes the
frozen specification claims about them.

Machine doubles are modelled as real numbers (exact arithmetic);
floating-point rounding is outside the scope of this development.
-/

namespace ISpec

noncomputable section

open Classical

-- ===================================================================
-- MathConfig  (engine/src/utils/math.h)
-- ===================================================================

namespace MathConfig

/-- Tolerance constant: `MathConfig::epsilon = 1e-12`. -/
def eps : ℝ := 1e-12

/-- Gravitational constant in km^3 kg^-1 s^-2: `6.67430e-11 * 1e-9`. -/
def G : ℝ := 6.67430e-11 * 1e-9

/-- Speed of light in km/s: `299792.458`. -/
def c : ℝ := 299792.458

/-- `MathConfig::floatEquals(a, b)`: `|a - b| < epsilon`. -/
def floatEquals (a b : ℝ) : Prop := |a - b| < eps

/-- `MathConfig::safeDiv(n, d, fallback)`: returns the fallback when
`|d| < epsilon`, else `n / d`. -/
def safeDiv (n d fb : ℝ) : ℝ := if |d| < eps then fb else n / d

/-- `MathConfig::epsilonDiv(n, d)`: `n / (d + epsilon)`. -/
def epsilonDiv (n d : ℝ) : ℝ := n / (d + eps)

/-- `MathConfig::clamp(value, min_val)` with the default
`max_val = infinity`, as used in `ThrustActionModel::apply`:
`max(min_val, min(value, infinity)) = max(min_val, value)`. -/
def clampMin (value min_val : ℝ) : ℝ := max min_val value

/-- `std::round`: round to nearest integer, halves away from zero
(the semantics of `MathConfig::round` on scalars). -/
def round (x : ℝ) : ℝ := if 0 ≤ x then (⌊x + 1/2⌋ : ℤ) else (⌈x - 1/2⌉ : ℤ)

end MathConfig

-- ===================================================================
-- Matrix  (engine/src/utils/matrix.h; matrix.cpp is not in the
-- sources, so each operation body is modelled from the header
-- documentation and spec section 3 / 4.A)
-- ===================================================================

/-- A dense row-major matrix of doubles, `utils/matrix.h`.
`data` stores the `m * n` entries row by row. -/
structure Matrix where
  m : ℕ
  n : ℕ
  data : List ℝ

namespace Matrix

/-- Entry access `mat(i, j)` (row-major: index `i * n + j`). -/
def get (A : Matrix) (i j : ℕ) : ℝ := A.data.getD (i * A.n + j) 0

/-- `Matrix(m, n, fill)`: every entry initialized to `fill`. -/
def fill (m n : ℕ) (v : ℝ) : Matrix := ⟨m, n, List.replicate (m * n) v⟩

/-- `Matrix(m, n, values)`: entries from an explicit list, row-major. -/
def ofList (m n : ℕ) (l : List ℝ) : Matrix := ⟨m, n, l⟩

/-- Row-major entry list of an `h × w` matrix with entry function `f`. -/
def grid (h w : ℕ) (f : ℕ → ℕ → ℝ) : List ℝ :=
  (List.range (h * w)).map (fun k => f (k / w) (k % w))

/-- Modelled from the spec: elementwise matrix addition (`matrix.cpp`
absent; shapes always agree at every call site in the engine). -/
def add (A B : Matrix) : Matrix := ⟨A.m, A.n, A.data.zipWith (· + ·) B.data⟩

/-- Modelled from the spec: elementwise matrix subtraction. -/
def sub (A B : Matrix) : Matrix := ⟨A.m, A.n, A.data.zipWith (· - ·) B.data⟩

/-- Modelled from the spec: `mat * scalar`. -/
def smul (A : Matrix) (s : ℝ) : Matrix := ⟨A.m, A.n, A.data.map (· * s)⟩

/-- Modelled from the spec: matrix transpose. -/
def transpose (A : Matrix) : Matrix := ⟨A.n, A.m, grid A.n A.m (fun i j => A.get j i)⟩

/-- Modelled from the spec: matrix product (row-by-column sums). -/
def mul (A B : Matrix) : Matrix :=
  ⟨A.m, B.n, grid A.m B.n (fun i j => ∑ k ∈ Finset.range A.n, A.get i k * B.get k j)⟩

/-- `Matrix::zero(rows, cols)`. -/
def zero (m n : ℕ) : Matrix := fill m n 0

/-- `Matrix::toHomogeneous`: given a 2x1 matrix, append the trailing 1. -/
def toHomogeneous (A : Matrix) : Matrix := ⟨3, 1, [A.get 0 0, A.get 1 0, 1]⟩

/-- `Matrix::fromHomogeneous`: given a 3x1 matrix, drop the trailing
coordinate. -/
def fromHomogeneous (A : Matrix) : Matrix := ⟨2, 1, [A.get 0 0, A.get 1 0]⟩

/-- `Matrix::rotate2d(angle)`: the canonical 2D rotation embedded as a
3x3 affine transform with no translation (spec section 4.A). -/
def rotate2d (θ : ℝ) : Matrix :=
  ⟨3, 3, [Real.cos θ, -Real.sin θ, 0, Real.sin θ, Real.cos θ, 0, 0, 0, 1]⟩

/-- A well-shaped 2x1 column vector. -/
def Is2x1 (A : Matrix) : Prop := A.m = 2 ∧ A.n = 1 ∧ A.data.length = 2

end Matrix

namespace MathConfig

/-- `MathConfig::round(Matrix)`: componentwise `std::round`. -/
def roundMat (A : Matrix) : Matrix := ⟨A.m, A.n, A.data.map MathConfig.round⟩

/-- `MathConfig::normp(v, p)`: `(Σ_{i < rows} |v(i,0)|^p)^(1/p)`
(the source iterates the first column only). -/
def normp (v : Matrix) (p : ℕ) : ℝ :=
  (∑ i ∈ Finset.range v.m, |v.get i 0| ^ p) ^ ((1 : ℝ) / p)

/-- `MathConfig::normalized(v)`: `v * (1 / normp(v, 2))`.  The source
throws on `floatEquals(normp(v,2), 0)`; every call site in the engine
is guarded by that same test, so the throwing branch is unreachable
and is not modelled. -/
def normalized (v : Matrix) : Matrix := v.smul (1 / normp v 2)

/-- `MathConfig::dot(a, b)`: `(a.T() * b)(0, 0)`. -/
def dot (a b : Matrix) : ℝ := ((a.transpose).mul b).get 0 0

end MathConfig

-- ===================================================================
-- Entities  (engine/src/simulation/models.cpp, strategies.h)
-- ===================================================================

/-- `EllipticalOrbit::pos(t)` (simulation/strategies.h):
`x = a cos(ωt + φ)`, `y = b sin(ωt + φ)`, then
`center + fromHomogeneous(rotate2d(angle) * [x; y; 1])`. -/
def ellipticalPos (a b omega phi : ℝ) (center : Matrix) (angle t : ℝ) : Matrix :=
  let x := a * Real.cos (omega * t + phi)
  let y := b * Real.sin (omega * t + phi)
  let point : Matrix := ⟨3, 1, [x, y, 1]⟩
  let rotated := (Matrix.rotate2d angle).mul point
  center.add (Matrix.fromHomogeneous rotated)

/-- The position rule of a celestial body: either a fixed 2x1 position
(`StationaryBody`) or an elliptical trajectory (`OrbitingBody` with an
`EllipticalOrbit` strategy, the only strategy in the engine). -/
inductive BodyKind where
  | stationary (position : Matrix)
  | orbiting (a b omega phi : ℝ) (center : Matrix) (angle : ℝ)

/-- `CelestialBody`: id, radius, mass, and position rule. -/
structure CelestialBody where
  id : ℕ
  radius : ℝ
  mass : ℝ
  kind : BodyKind

/-- `CelestialBody::pos(t)`. -/
def CelestialBody.pos (b : CelestialBody) (t : ℝ) : Matrix :=
  match b.kind with
  | .stationary p => p
  | .orbiting a bb omega phi center angle => ellipticalPos a bb omega phi center angle t

/-- `WormHole`: entry/exit positions and opening window. -/
structure WormHole where
  id : ℕ
  entry : Matrix
  exit : Matrix
  t_open : ℝ
  t_close : ℝ

/-- `Artifact`: a stationary collectible; `pos(t)` is its position. -/
structure Artifact where
  id : ℕ
  position : Matrix

/-- `Spacecraft` (models.cpp). -/
structure Spacecraft where
  id : ℕ
  mass : ℝ
  fuel : ℝ
  min_fuel_to_land : ℝ
  thrust_levels : List ℝ
  exhaust_velocity : ℝ

/-- `WorldData`: owned entity lists plus the universe radius
(`max_radius`, as constructed in `ReferenceSimulation::buildWorldData`
and read by `ThrustActionModel::checkConstraints`). -/
structure WorldData where
  bodies : List CelestialBody
  wormholes : List WormHole
  artifacts : List Artifact
  max_radius : ℝ

-- ===================================================================
-- Environment model  (ref::ConcreteEnvironment, actions.cpp 315-358)
-- ===================================================================

namespace ConcreteEnvironment

/-- `ref::ConcreteEnvironment::gravity(position, t_u)`: accumulates
`Ri * (G * mass * epsilonDiv(1, d*d*d))` with `Ri = ri - r`,
`d = normp(Ri, 2)` over all bodies, starting from the 2x1 zero
(the source's locals `ri`, `Ri`, `d`, `inv_d` are inlined here). -/
def gravity (wd : WorldData) (position : Matrix) (t_u : ℝ) : Matrix :=
  wd.bodies.foldl
    (fun a body =>
      a.add (((body.pos t_u).sub position).smul
        (MathConfig.G * body.mass *
          MathConfig.epsilonDiv 1
            (MathConfig.normp ((body.pos t_u).sub position) 2 *
             MathConfig.normp ((body.pos t_u).sub position) 2 *
             MathConfig.normp ((body.pos t_u).sub position) 2))))
    (Matrix.fill 2 1 0)

/-- `ref::ConcreteEnvironment::potential(position, t_u)`: accumulates
`epsilonDiv(G * mass, d)` with `d = normp(ri - r, 2)` over all bodies,
then multiplies by `-1`. -/
def potential (wd : WorldData) (position : Matrix) (t_u : ℝ) : ℝ :=
  (wd.bodies.foldl
    (fun phi body =>
      phi + MathConfig.epsilonDiv (MathConfig.G * body.mass)
        (MathConfig.normp ((body.pos t_u).sub position) 2))
    0) * (-1)

/-- `ref::ConcreteEnvironment::gamma(position, velocity, t_u)`:
`1 / (1 + Φ/c² − v·v/(2c²))` with `v·v = dot(velocity, velocity)`
and `c² = c * c`. -/
def gamma (wd : WorldData) (position velocity : Matrix) (t_u : ℝ) : ℝ :=
  1 / (1 + potential wd position t_u / (MathConfig.c * MathConfig.c) -
    MathConfig.dot velocity velocity / (2 * (MathConfig.c * MathConfig.c)))

/-- `ref::ConcreteEnvironment::invGamma(position, velocity, t_u)`:
`1 + Φ/c² − v·v/(2c²)`. -/
def invGamma (wd : WorldData) (position velocity : Matrix) (t_u : ℝ) : ℝ :=
  1 + potential wd position t_u / (MathConfig.c * MathConfig.c) -
    MathConfig.dot velocity velocity / (2 * (MathConfig.c * MathConfig.c))

end ConcreteEnvironment

-- ===================================================================
-- World index  (ref::NaiveWorldIndex, actions.cpp 360-403)
-- ===================================================================

namespace NaiveWorldIndex

/-- `ref::NaiveWorldIndex::queryCelestials`: every body whose position
at `t_u` lies within `radius` of `position`. -/
def queryCelestials (wd : WorldData) (position : Matrix) (radius t_u : ℝ) :
    List CelestialBody :=
  wd.bodies.filter (fun body =>
    MathConfig.normp ((body.pos t_u).sub position) 2 ≤ radius)

/-- `ref::NaiveWorldIndex::queryWormHoles`: wormholes whose (static)
entry lies within `radius` of `position`. -/
def queryWormHoles (wd : WorldData) (position : Matrix) (radius t_u : ℝ) :
    List WormHole :=
  wd.wormholes.filter (fun wh =>
    MathConfig.normp (wh.entry.sub position) 2 ≤ radius)

/-- `ref::NaiveWorldIndex::queryArtifacts`: artifacts whose (static)
position lies within `radius` of `position`. -/
def queryArtifacts (wd : WorldData) (position : Matrix) (radius t_u : ℝ) :
    List Artifact :=
  wd.artifacts.filter (fun art =>
    MathConfig.normp (art.position.sub position) 2 ≤ radius)

end NaiveWorldIndex

-- ===================================================================
-- Time policy  (ref::SimpleTimePolicy, actions.cpp 405-433)
-- ===================================================================

/-- The constants of a `TimePolicy`: the horizon `tmax` and the fixed
global step `dt_u` used by action enumeration. -/
structure TimePolicyParams where
  tmax : ℝ
  dt_u : ℝ

/-- The loop body of `ref::SimpleTimePolicy::toProper`:
`for (t = t_u; t < t_end; t += 0.01) acc += 0.01 * invGamma(x, v, t)`.
Termination is by the number of remaining steps `⌈(t_end - t)/0.01⌉`. -/
def toProperAux (wd : WorldData) (x v : Matrix) (t_end : ℝ) (t : ℝ) (acc : ℝ) : ℝ :=
  if h : t < t_end then
    toProperAux wd x v t_end (t + 0.01) (acc + 0.01 * ConcreteEnvironment.invGamma wd x v t)
  else acc
termination_by (⌈(t_end - t) / 0.01⌉).toNat
decreasing_by
  have h1 : (0 : ℝ) < 0.01 := by norm_num
  have h2 : (t_end - (t + 0.01)) / 0.01 = (t_end - t) / 0.01 - 1 := by ring
  have h3 : (0 : ℝ) < (t_end - t) / 0.01 := div_pos (by linarith) h1
  have h4 : (1 : ℤ) ≤ ⌈(t_end - t) / 0.01⌉ := by
    exact_mod_cast Int.ceil_pos.mpr h3
  have h5 : ⌈(t_end - (t + 0.01)) / 0.01⌉ = ⌈(t_end - t) / 0.01⌉ - 1 := by
    rw [h2]
    exact_mod_cast Int.ceil_sub_int ((t_end - t) / 0.01) 1
  omega

/-- `ref::SimpleTimePolicy::toProper(dt_u, position, velocity, t_u)`:
rectangle sum of `invGamma` with step `0.01` over `[t_u, t_u + dt_u)`,
holding position and velocity fixed. -/
def toProper (wd : WorldData) (dt_u : ℝ) (x v : Matrix) (t_u : ℝ) : ℝ :=
  toProperAux wd x v (t_u + dt_u) t_u 0

-- ===================================================================
-- StateVertex, DiscreteState, Quantizer
-- (engine/src/simulation/actions.h 24-50, solver.h 24-98)
-- ===================================================================

/-- `StateVertex` (actions.h): continuous planner state plus the
collected-artifact id set (`uset<u32>`, modelled as a `Finset ℕ`). -/
structure StateVertex where
  x : Matrix
  v : Matrix
  t_u : ℝ
  fuel : ℝ
  collected_artifacts : Finset ℕ

/-- `StateVertex::isValid()`: x and v are 2x1 and `fuel >= 0`. -/
def StateVertex.isValid (sv : StateVertex) : Prop :=
  sv.x.Is2x1 ∧ sv.v.Is2x1 ∧ 0 ≤ sv.fuel

/-- `DiscreteState` (solver.h): the quantized search key. -/
structure DiscreteState where
  qx : Matrix
  qv : Matrix
  qt_u : ℝ
  qfuel : ℝ
  collected_artifacts : Finset ℕ

/-- `QuantizerConfig` (solver.h): the four bin sizes. -/
structure QuantizerConfig where
  pos_bin : ℝ
  vel_bin : ℝ
  time_bin : ℝ
  fuel_bin : ℝ

/-- `Quantizer::q(sv)` (solver.h 90-97): componentwise round of
`x * (1/pos_bin)`, `v * (1/vel_bin)`, `t_u / time_bin`,
`fuel / fuel_bin`; the collected set passes through unchanged. -/
def Quantizer.q (config : QuantizerConfig) (sv : StateVertex) : DiscreteState :=
  { qx := MathConfig.roundMat (sv.x.smul (1 / config.pos_bin))
    qv := MathConfig.roundMat (sv.v.smul (1 / config.vel_bin))
    qt_u := MathConfig.round (sv.t_u / config.time_bin)
    qfuel := MathConfig.round (sv.fuel / config.fuel_bin)
    collected_artifacts := sv.collected_artifacts }

-- ===================================================================
-- Thrust action model  (engine/src/simulation/actions.cpp)
-- ===================================================================

/-- `ThrustAction` (actions.h): thrust level, normalized 2x1 direction,
and the global-time step.  `cost() = dt_global`. -/
structure ThrustAction where
  thrust_level : ℝ
  direction : Matrix
  dt_global : ℝ

/-- `ThrustAction::cost()`. -/
def ThrustAction.cost (a : ThrustAction) : ℝ := a.dt_global

/-- The immutable context of a `ThrustActionModel`: world data, time
policy constants, spacecraft, and the candidate thrust directions. -/
structure ThrustActionModel where
  wd : WorldData
  tp : TimePolicyParams
  spacecraft : Spacecraft
  possible_directions : List ℝ

/-- `direction(from)` (actions.cpp 50-59): the unit vector of `from.v`
unless `floatEquals(normp(from.v,2), 0)`, in which case the x-axis
unit vector `(1, 0)`. -/
def direction (from_ : StateVertex) : Matrix :=
  let v := MathConfig.normp from_.v 2
  if MathConfig.floatEquals v 0 then Matrix.ofList 2 1 [1, 0]
  else MathConfig.normalized from_.v

/-- `ThrustActionModel::enumerate(from)` (actions.cpp 61-86): for each
angle, rotate the homogenized forward direction; for each thrust
level emit an action with `dt_global = dtu()`; finally append the
coast action `(0, fromHomogeneous(d), dtu())`. -/
def ThrustActionModel.enumerate (M : ThrustActionModel) (from_ : StateVertex) :
    List ThrustAction :=
  (M.possible_directions.flatMap (fun angle =>
    M.spacecraft.thrust_levels.map (fun thrust_level =>
      ⟨thrust_level,
       Matrix.fromHomogeneous ((Matrix.rotate2d angle).mul (Matrix.toHomogeneous (direction from_))),
       M.tp.dt_u⟩)))
  ++ [⟨0, Matrix.fromHomogeneous (Matrix.toHomogeneous (direction from_)), M.tp.dt_u⟩]

/-- `ThrustActionModel::IntState` (actions.h 149-174): the 4-tuple
integrated by RK4. -/
structure IntState where
  x : Matrix
  v : Matrix
  fuel : ℝ
  t_u : ℝ

/-- `IntState::operator+`. -/
def IntState.add (s o : IntState) : IntState :=
  ⟨s.x.add o.x, s.v.add o.v, s.fuel + o.fuel, s.t_u + o.t_u⟩

/-- `IntState::operator*(scalar)`. -/
def IntState.smul (s : IntState) (c : ℝ) : IntState :=
  ⟨s.x.smul c, s.v.smul c, s.fuel * c, s.t_u * c⟩

/-- `MathConfig::rk4Integrate` (math.h) instantiated at `IntState`:
`x0 + (k1 + k2*2 + k3*2 + k4) * (dt/6)` with the four stages at
`(x0, t)`, `(x0 + k1*dt/2, t + dt/2)`, `(x0 + k2*dt/2, t + dt/2)`,
`(x0 + k3*dt, t + dt)`. -/
def rk4Integrate (x0 : IntState) (t dt : ℝ) (f : IntState → ℝ → IntState) : IntState :=
  let k1 := f x0 t
  let k2 := f (x0.add (k1.smul (dt / 2))) (t + dt / 2)
  let k3 := f (x0.add (k2.smul (dt / 2))) (t + dt / 2)
  let k4 := f (x0.add (k3.smul dt)) (t + dt)
  x0.add ((((k1.add (k2.smul 2)).add (k3.smul 2)).add k4).smul (dt / 6))

/-- `ThrustActionModel::findIntState(from, ptr)` (actions.cpp 125-170):
RK4 over proper time from 0 to `toProper(dt_global, ...)` under the
relativistically coupled dynamics. -/
def ThrustActionModel.findIntState (M : ThrustActionModel) (from_ : StateVertex)
    (ptr : ThrustAction) : IntState :=
  let deriv : IntState → ℝ → IntState := fun s _tau =>
    let y := ConcreteEnvironment.gamma M.wd s.x s.v s.t_u
    let total_mass := M.spacecraft.mass + s.fuel
    let a_g := ConcreteEnvironment.gravity M.wd s.x s.t_u
    let a_th := if 0 < s.fuel then ptr.direction.smul (ptr.thrust_level / total_mass)
                else Matrix.fill 2 1 0
    { x := s.v.smul y
      v := (a_g.add a_th).smul y
      fuel := MathConfig.safeDiv (-ptr.thrust_level) M.spacecraft.exhaust_velocity 0
      t_u := y }
  let dt_prop := toProper M.wd ptr.dt_global from_.x from_.v from_.t_u
  rk4Integrate ⟨from_.x, from_.v, from_.fuel, from_.t_u⟩ 0 dt_prop deriv

/-- `ThrustActionModel::artifactsHere(position, t_u)` (actions.cpp
172-187): ids of the artifacts returned by
`queryArtifacts(position, epsilon, t_u)`, as a set. -/
def ThrustActionModel.artifactsHere (M : ThrustActionModel) (position : Matrix)
    (t_u : ℝ) : Finset ℕ :=
  ((NaiveWorldIndex.queryArtifacts M.wd position MathConfig.eps t_u).map
    (fun art => art.id)).toFinset

/-- The largest body radius, `0` if there are no bodies
(`max_element` in `detectCollision`). -/
def maxBodyRadius (wd : WorldData) : ℝ :=
  ((wd.bodies.map (fun b => b.radius)).maximum?).getD 0

/-- `ThrustActionModel::detectCollision(position, t_u)` (actions.cpp
189-215): some body within `queryCelestials(position, r_max + 1, t_u)`
has `normp(position - body.pos(t_u), 2) ≤ body.radius`. -/
def ThrustActionModel.detectCollision (M : ThrustActionModel) (position : Matrix)
    (t_u : ℝ) : Prop :=
  ∃ body ∈ NaiveWorldIndex.queryCelestials M.wd position (maxBodyRadius M.wd + 1) t_u,
    MathConfig.normp (position.sub (body.pos t_u)) 2 ≤ body.radius

/-- `ThrustActionModel::checkConstraints(state)` (actions.cpp 88-97):
no collision, state invariant, horizon, universe radius. -/
def ThrustActionModel.checkConstraints (M : ThrustActionModel) (state : StateVertex) :
    Prop :=
  ¬ M.detectCollision state.x state.t_u ∧
  state.isValid ∧
  state.t_u ≤ M.tp.tmax ∧
  MathConfig.normp state.x 2 ≤ M.wd.max_radius

/-- The candidate successor constructed inside
`ThrustActionModel::apply` (actions.cpp 107-115): the integrated
state with fuel clamped to `max(fuel, 0)` and the artifact ids at the
new position and time united into the collected set. -/
def ThrustActionModel.successor (M : ThrustActionModel) (from_ : StateVertex)
    (a : ThrustAction) : StateVertex :=
  let s_new := M.findIntState from_ a
  { x := s_new.x
    v := s_new.v
    t_u := s_new.t_u
    fuel := MathConfig.clampMin s_new.fuel 0
    collected_artifacts :=
      from_.collected_artifacts ∪ M.artifactsHere s_new.x s_new.t_u }

/-- `ThrustActionModel::apply(from, action)` (actions.cpp 99-121) for a
thrust action (the dynamic cast succeeds): the successor if it passes
`checkConstraints`, else `None`. -/
def ThrustActionModel.apply (M : ThrustActionModel) (from_ : StateVertex)
    (a : ThrustAction) : Option StateVertex :=
  if M.checkConstraints (M.successor from_ a) then some (M.successor from_ a) else none

-- ===================================================================
-- Solver  (engine/src/simulation/solver.h / solver.cpp)
--
-- The solver is generic over the state type σ, the action type α and
-- the quantized key type κ, mirroring its C++ parameterization over
-- `ActionModel` (via the `neighbors` expansion), the goal predicate
-- and the quantizer.  The frontier container (`BFSSolver`, whose
-- definition is not among the sources) is modelled from the spec
-- section 4.G: a FIFO queue with `push` to the back and `pop` from
-- the front.  The C++ `while` loops are given an explicit `fuel`
-- bound; `none` means the bound was exhausted.
-- ===================================================================

section Solver

variable {σ α κ : Type} [DecidableEq κ]

/-- `umap<DiscreteState, StateAction>::find`: first entry with the
given key (keys are inserted at most once, so order is immaterial). -/
def pmFind (pm : List (κ × (σ × α))) (k : κ) : Option (σ × α) :=
  match pm with
  | [] => none
  | (k2, e) :: rest => if k = k2 then some e else pmFind rest k

/-- `SolverResult` (solver.h 119-122): the path of
(state, optional action) pairs and its total cost. -/
structure SolverResult (σ α : Type) where
  path : List (σ × Option α)
  total_cost : ℝ

variable (q : σ → κ) (neighbors : σ → List (σ × α)) (isGoal : σ → Bool) (cost : α → ℝ)

/-- The loop of `Solver::reconstruct` (solver.cpp 28-38): push the
current (state, action) pair, look up the parent of its quantized
key, and continue from the parent with the edge action; stop when the
key has no parent entry. -/
def reconstructAux (pm : List (κ × (σ × α))) :
    ℕ → σ → Option α → List (σ × Option α) → List (σ × Option α)
  | 0, v, a, acc => acc ++ [(v, a)]
  | (f + 1), v, a, acc =>
    match pmFind pm (q v) with
    | none => acc ++ [(v, a)]
    | some (p, pa) => reconstructAux pm f p (some pa) (acc ++ [(v, a)])

/-- `Solver::reconstruct(goal, parent_map)` (solver.cpp 20-42): walk
the parent map from the goal, then reverse.  The walk bound
`pm.length + 1` is never hit on states discovered by the search. -/
def reconstruct (goal : σ) (pm : List (κ × (σ × α))) : List (σ × Option α) :=
  (reconstructAux q pm (pm.length + 1) goal none []).reverse

/-- The cost contribution of one path element in `computeCost`:
`sa.action ? sa.action->cost() : 0.0`. -/
def edgeCost (sa : σ × Option α) : ℝ :=
  match sa.2 with
  | some a => cost a
  | none => 0

/-- `computeCost(path)` (solver.cpp 54-66): left fold of `+` over the
costs of the first `path.size() - 1` elements, starting from 0. -/
def computeCost (path : List (σ × Option α)) : ℝ :=
  (path.take (path.length - 1)).foldl (fun acc sa => acc + edgeCost cost sa) 0

/-- The body of the neighbor loop in `Solver::solve` (solver.cpp
90-99): if the quantized key is not yet visited, insert it, record
`parent[key] = (cur, action)`, and push the state onto the frontier. -/
def expandStep (cur : σ) (st : List κ × List (κ × (σ × α)) × List σ) (nb : σ × α) :
    List κ × List (κ × (σ × α)) × List σ :=
  let (vis, pm, qu) := st
  if q nb.1 ∈ vis then st
  else (q nb.1 :: vis, (q nb.1, (cur, nb.2)) :: pm, qu ++ [nb.1])

/-- The `while (!strategy->empty())` loop of `Solver::solve` (solver.cpp
80-100): pop, test the goal (reconstruct and fold the cost on
success), otherwise expand every neighbor. -/
def solveLoop :
    ℕ → List σ → List κ → List (κ × (σ × α)) → Option (Option (SolverResult σ α))
  | 0, _, _, _ => none
  | (f + 1), qu, vis, pm =>
    match qu with
    | [] => some none
    | cur :: rest =>
      if isGoal cur then
        let path := reconstruct q cur pm
        some (some ⟨path, computeCost cost path⟩)
      else
        let st := (neighbors cur).foldl (expandStep q cur) (vis, pm, rest)
        solveLoop f st.2.2 st.1 st.2.1

/-- `Solver::solve(start, isGoal)` (solver.cpp 69-103): push the start,
mark its quantized key visited, and run the search loop. -/
def solve (start : σ) (fuel : ℕ) : Option (Option (SolverResult σ α)) :=
  solveLoop q neighbors isGoal cost fuel [start] [q start] []

/-- Parent-map reachability: the chain of parent entries from a state
down to the start, with each link a recorded neighbor edge.  `n`
bounds the chain length.  This is the invariant the search maintains
for every frontier state. -/
inductive ParentChain (start : σ) (pm : List (κ × (σ × α))) : σ → ℕ → Prop where
  | base : ParentChain start pm start 0
  | step {s p : σ} {a : α} {n : ℕ} :
      pmFind pm (q s) = some (p, a) →
      (s, a) ∈ neighbors p →
      ParentChain start pm p n →
      ParentChain start pm s (n + 1)

/-- The solver loop invariant: the start key has no parent entry,
parent keys are distinct and all visited, the visited list is
duplicate-free and contains the start key, and every frontier state
is reachable through the parent map within `pm.length` steps. -/
def SolveInv (start : σ) (qu : List σ) (vis : List κ) (pm : List (κ × (σ × α))) : Prop :=
  pmFind pm (q start) = none ∧
  (pm.map Prod.fst).Nodup ∧
  (∀ k ∈ pm.map Prod.fst, k ∈ vis) ∧
  vis.Nodup ∧
  q start ∈ vis ∧
  (∀ s ∈ qu, ∃ n ≤ pm.length, ParentChain q neighbors start pm s n)

end Solver

-- ===================================================================
-- Reference simulation facade  (models.cpp 66-292, simulation.h)
-- ===================================================================

/-- `Solver::neighbors(sv)` (solver.cpp 3-18) with the single
`ThrustActionModel` installed by `buildSolver`: enumerate, apply,
keep the successful `(state, action)` pairs in order. -/
def refNeighbors (M : ThrustActionModel) (sv : StateVertex) :
    List (StateVertex × ThrustAction) :=
  (M.enumerate sv).filterMap (fun a => (M.apply sv a).map (fun s => (s, a)))

instance : DecidableEq Matrix := Classical.decEq _

instance : DecidableEq DiscreteState := Classical.decEq _

/-- The engine pieces `ReferenceSimulation::initialize` assembles, as
needed by `compute`: the action-model context, the quantizer bins,
the initial state fields and the target artifact count `k`.  The
`SimulationConfig` struct itself is not among the sources; this is
modelled from the spec section 6 (ingress). -/
structure EngineSetup where
  M : ThrustActionModel
  qcfg : QuantizerConfig
  initial_position : Matrix
  initial_velocity : Matrix
  initial_fuel : ℝ
  k : ℕ

/-- The start vertex `compute()` builds (models.cpp 171-177):
initial position/velocity/fuel at global time 0, nothing collected. -/
def EngineSetup.start (E : EngineSetup) : StateVertex :=
  ⟨E.initial_position, E.initial_velocity, 0, E.initial_fuel, ∅⟩

/-- The goal predicate of `compute()` (models.cpp 178-180):
`collected_artifacts.size() >= k`. -/
def EngineSetup.isGoal (E : EngineSetup) (sv : StateVertex) : Bool :=
  decide (E.k ≤ sv.collected_artifacts.card)

/-- The solver invocation inside `compute()` (models.cpp 182). -/
def EngineSetup.runSolver (E : EngineSetup) (fuel : ℕ) :
    Option (Option (SolverResult StateVertex ThrustAction)) :=
  solve (Quantizer.q E.qcfg) (refNeighbors E.M) E.isGoal ThrustAction.cost E.start fuel

/-- The error taxonomy of simulation.h relevant to the facade. -/
inductive SimError where
  | simulationFailed
  | simulationCompleted
deriving DecidableEq

/-- `ReferenceSimulation::compute()` (models.cpp 170-189): store the
result and reset the step counter on success, throw
`SimulationFailed` when the solver returns no path.  The outer
`Option` is the solver loop bound. -/
def EngineSetup.compute (E : EngineSetup) (fuel : ℕ) :
    Option (Except SimError (SolverResult StateVertex ThrustAction × ℕ)) :=
  (E.runSolver fuel).map (fun r =>
    match r with
    | some result => Except.ok (result, 0)
    | none => Except.error SimError.simulationFailed)

/-- `ShipFrame` (world.h). -/
structure ShipFrame where
  x : Matrix
  v : Matrix
  fuel : ℝ
  t_p : ℝ
  collected_artifacts : Finset ℕ

/-- `BodyFrame` (world.h). -/
structure BodyFrame where
  id : ℕ
  x : Matrix
  radius : ℝ
  mass : ℝ

/-- `WormHoleFrame` (world.h). -/
structure WormHoleFrame where
  id : ℕ
  entry : Matrix
  exit : Matrix
  t_open : ℝ
  t_close : ℝ

/-- `ArtifactFrame` (world.h). -/
structure ArtifactFrame where
  id : ℕ
  position : Matrix

/-- `WorldFrame` (world.h): the per-step observable snapshot. -/
structure WorldFrame where
  t_u : ℝ
  ship : ShipFrame
  bodies : List BodyFrame
  wormholes : List WormHoleFrame
  artifacts : List ArtifactFrame

/-- `ReferenceSimulation::toFrame(state)` (models.cpp 208-247): project
the state and snapshot every entity at `state.t_u`; `ship.t_p` is set
to the literal 0. -/
def toFrame (wd : WorldData) (state : StateVertex) : WorldFrame :=
  { t_u := state.t_u
    ship := { x := state.x, v := state.v, fuel := state.fuel, t_p := 0,
              collected_artifacts := state.collected_artifacts }
    bodies := wd.bodies.map (fun b => ⟨b.id, b.pos state.t_u, b.radius, b.mass⟩)
    wormholes := wd.wormholes.map (fun wh => ⟨wh.id, wh.entry, wh.exit, wh.t_open, wh.t_close⟩)
    artifacts := wd.artifacts.map (fun art => ⟨art.id, art.position⟩) }

/-- `ReferenceSimulation::step()` (models.cpp 191-202) acting on the
stored result and step counter: `SimulationFailed` when nothing was
computed, `SimulationCompleted` when the counter has passed the last
path element, else the frame of the current element and the bumped
counter. -/
def stepSim (wd : WorldData) (last_result : Option (SolverResult StateVertex ThrustAction))
    (current_step : ℕ) : Except SimError (WorldFrame × ℕ) :=
  match last_result with
  | none => Except.error SimError.simulationFailed
  | some res =>
    if h : current_step < res.path.length then
      Except.ok (toFrame wd (res.path.get ⟨current_step, h⟩).1, current_step + 1)
    else Except.error SimError.simulationCompleted

-- ===================================================================
-- Spec-side definitions and concrete scenarios
-- ===================================================================

/-- The bin-center lift of a quantized key (spec section 8, invariant
5): multiply each rounded component by its bin size; the collected
set passes through. -/
def liftCenter (cfg : QuantizerConfig) (ds : DiscreteState) : StateVertex :=
  { x := ds.qx.smul cfg.pos_bin
    v := ds.qv.smul cfg.vel_bin
    t_u := ds.qt_u * cfg.time_bin
    fuel := ds.qfuel * cfg.fuel_bin
    collected_artifacts := ds.collected_artifacts }

/-- An empty universe with radius 10, horizon 10, step 0.01, a unit
mass spacecraft with unit exhaust velocity and the single thrust
level 0, and no candidate directions. -/
def tam0 : ThrustActionModel :=
  { wd := ⟨[], [], [], 10⟩
    tp := ⟨10, 0.01⟩
    spacecraft := ⟨0, 1, 0, 0, [0], 1⟩
    possible_directions := [] }

/-- The state at the origin, at rest, at time 0 with no fuel. -/
def sv0 : StateVertex :=
  ⟨Matrix.ofList 2 1 [0, 0], Matrix.ofList 2 1 [0, 0], 0, 0, ∅⟩

/-- The coast action of `tam0` at `sv0`. -/
def act0 : ThrustAction := ⟨0, Matrix.ofList 2 1 [1, 0], 0.01⟩

/-- A state whose velocity `(0, 1e-12)` has norm exactly
`MathConfig.eps`. -/
def svEps : StateVertex :=
  ⟨Matrix.ofList 2 1 [0, 0], Matrix.ofList 2 1 [0, 1e-12], 0, 0, ∅⟩

/-- A trivial engine setup over `tam0` with unit bins, zero initial
state and target count `k = 0`. -/
def E0 : EngineSetup :=
  { M := tam0
    qcfg := ⟨1, 1, 1, 1⟩
    initial_position := Matrix.ofList 2 1 [0, 0]
    initial_velocity := Matrix.ofList 2 1 [0, 0]
    initial_fuel := 0
    k := 0 }

/-- A two-node search graph over natural-number states (quantized by
the identity): node 0 has the single neighbor 1. -/
def c1neighbors (n : ℕ) : List (ℕ × Unit) := if n = 0 then [(1, ())] else []

/-- Goal predicate of the two-node graph: node 1. -/
def c1goal (n : ℕ) : Bool := n = 1

/-- Unit edge cost on the two-node graph. -/
def c1cost (_ : Unit) : ℝ := 1

/-- The solver on the two-node graph from node 0. -/
def c1solve (fuel : ℕ) : Option (Option (SolverResult ℕ Unit)) :=
  solve (σ := ℕ) (κ := ℕ) id c1neighbors c1goal c1cost 0 fuel

-- ===================================================================
-- ===================  Theorems and helper lemmas ===================
-- ===================================================================

-- Matrix toolkit ----------------------------------------------------

theorem get_ofList2 (a b : ℝ) (i : ℕ) :
    (Matrix.ofList 2 1 [a, b]).get i 0 = [a, b].getD i 0 := by
  simp [Matrix.get, Matrix.ofList]

theorem exists_pair_of2x1 (A : Matrix) (h : A.Is2x1) :
    ∃ a b, A = Matrix.ofList 2 1 [a, b] := by
  obtain ⟨hm, hn, hl⟩ := h
  obtain ⟨a, b, hab⟩ := List.length_eq_two.mp hl
  exact ⟨a, b, by cases A with
    | mk m n data => simp_all [Matrix.ofList]⟩

theorem add_pair (a b c d : ℝ) :
    (Matrix.ofList 2 1 [a, b]).add (Matrix.ofList 2 1 [c, d]) =
      Matrix.ofList 2 1 [a + c, b + d] := by
  simp [Matrix.add, Matrix.ofList]

theorem sub_pair (a b c d : ℝ) :
    (Matrix.ofList 2 1 [a, b]).sub (Matrix.ofList 2 1 [c, d]) =
      Matrix.ofList 2 1 [a - c, b - d] := by
  simp [Matrix.sub, Matrix.ofList]

theorem smul_pair (a b s : ℝ) :
    (Matrix.ofList 2 1 [a, b]).smul s = Matrix.ofList 2 1 [a * s, b * s] := by
  simp [Matrix.smul, Matrix.ofList]

theorem fill_two (v : ℝ) : Matrix.fill 2 1 v = Matrix.ofList 2 1 [v, v] := by
  simp [Matrix.fill, Matrix.ofList, List.replicate]

theorem pair_is2x1 (a b : ℝ) : (Matrix.ofList 2 1 [a, b]).Is2x1 := by
  exact ⟨rfl, rfl, rfl⟩

-- Rounding ----------------------------------------------------------

theorem round_intCast (k : ℤ) : MathConfig.round (k : ℝ) = k := by
  unfold MathConfig.round
  have hf : ⌊(1:ℝ)/2⌋ = 0 := by norm_num
  have hc : ⌈-(1:ℝ)/2⌉ = 0 := by norm_num [Int.ceil_eq_zero_iff]
  by_cases h : (0 : ℝ) ≤ (k : ℝ)
  · rw [if_pos h, show ((k : ℝ) + 1/2) = ((1:ℝ)/2 + k) by ring, Int.floor_add_int, hf]
    norm_num
  · rw [if_neg h, show ((k : ℝ) - 1/2) = (-(1:ℝ)/2 + k) by ring, Int.ceil_add_int, hc]
    norm_num

theorem round_exists_int (x : ℝ) : ∃ k : ℤ, MathConfig.round x = (k : ℝ) := by
  unfold MathConfig.round
  by_cases h : (0 : ℝ) ≤ x
  · exact ⟨⌊x + 1/2⌋, by rw [if_pos h]⟩
  · exact ⟨⌈x - 1/2⌉, by rw [if_neg h]⟩

theorem round_round (x : ℝ) : MathConfig.round (MathConfig.round x) = MathConfig.round x := by
  obtain ⟨k, hk⟩ := round_exists_int x
  rw [hk, round_intCast]

-- ===================================================================
-- C10
-- ===================================================================

/-- C10: every `WorldFrame` produced by `toFrame` (hence every frame
returned by `step()`) carries `ship.t_p = 0`, regardless of the
proper time accumulated along the path; the proper-time field of the
snapshot is never computed. -/
theorem C10_ship_proper_time_zero :
    ∀ (wd : WorldData) (state : StateVertex), (toFrame wd state).ship.t_p = 0 :=
  fun _ _ => rfl

-- Norm lemmas -------------------------------------------------------

theorem normp_nonneg (v : Matrix) (p : ℕ) : 0 ≤ MathConfig.normp v p := by
  unfold MathConfig.normp
  exact Real.rpow_nonneg (Finset.sum_nonneg fun i _ => by positivity) _

theorem rpow_half_sq (x : ℝ) (hx : 0 ≤ x) : ((x ^ (2:ℕ) : ℝ)) ^ ((1:ℝ)/2) = x := by
  rw [← Real.rpow_natCast x 2, ← Real.rpow_mul hx]
  norm_num

theorem normp_pair (a b : ℝ) :
    MathConfig.normp (Matrix.ofList 2 1 [a, b]) 2 = (|a| ^ 2 + |b| ^ 2) ^ ((1:ℝ)/2) := by
  unfold MathConfig.normp
  rw [show (Matrix.ofList 2 1 [a, b]).m = 2 from rfl]
  rw [Finset.sum_range_succ, Finset.sum_range_one, get_ofList2, get_ofList2]
  norm_num

theorem normp_sq_eq_sum (v : Matrix) :
    MathConfig.normp v 2 ^ (2:ℕ) = ∑ i ∈ Finset.range v.m, v.get i 0 ^ 2 := by
  unfold MathConfig.normp
  have hs : (0:ℝ) ≤ ∑ i ∈ Finset.range v.m, |v.get i 0| ^ 2 :=
    Finset.sum_nonneg fun i _ => by positivity
  have hp : ((1:ℝ) / ((2:ℕ):ℝ)) = 1/2 := by norm_num
  rw [hp, ← Real.rpow_natCast (((∑ i ∈ Finset.range v.m, |v.get i 0| ^ 2)) ^ ((1:ℝ)/2)) 2,
    ← Real.rpow_mul hs]
  norm_num

-- ===================================================================
-- C2
-- ===================================================================

/-- C2: for every state and thrust action, `ThrustActionModel::apply`
returns `None` exactly when the (clamped, artifact-augmented)
integrated successor breaks the state invariant (x or v not 2x1 or
fuel < 0), or collides with a body returned by
`queryCelestials(x_new, r_max + 1, t_u_new)` at distance at most that
body's radius, or overshoots the horizon (`t_u_new > t_max`), or
escapes (`‖x_new‖ > max_radius`); otherwise it returns the successor. -/
theorem C2_apply_none_iff (M : ThrustActionModel) (from_ : StateVertex)
    (a : ThrustAction) :
    (M.apply from_ a = none ↔
      ((¬ (M.successor from_ a).x.Is2x1 ∨ ¬ (M.successor from_ a).v.Is2x1 ∨
          (M.successor from_ a).fuel < 0) ∨
        (∃ body ∈ NaiveWorldIndex.queryCelestials M.wd (M.successor from_ a).x
            (maxBodyRadius M.wd + 1) (M.successor from_ a).t_u,
          MathConfig.normp ((M.successor from_ a).x.sub
            (body.pos (M.successor from_ a).t_u)) 2 ≤ body.radius) ∨
        M.tp.tmax < (M.successor from_ a).t_u ∨
        M.wd.max_radius < MathConfig.normp (M.successor from_ a).x 2)) ∧
    (M.apply from_ a = none ∨ M.apply from_ a = some (M.successor from_ a)) := by
  have key : (¬ M.checkConstraints (M.successor from_ a)) ↔
      ((¬ (M.successor from_ a).x.Is2x1 ∨ ¬ (M.successor from_ a).v.Is2x1 ∨
          (M.successor from_ a).fuel < 0) ∨
        (∃ body ∈ NaiveWorldIndex.queryCelestials M.wd (M.successor from_ a).x
            (maxBodyRadius M.wd + 1) (M.successor from_ a).t_u,
          MathConfig.normp ((M.successor from_ a).x.sub
            (body.pos (M.successor from_ a).t_u)) 2 ≤ body.radius) ∨
        M.tp.tmax < (M.successor from_ a).t_u ∨
        M.wd.max_radius < MathConfig.normp (M.successor from_ a).x 2) := by
    have hD : (∃ body ∈ NaiveWorldIndex.queryCelestials M.wd (M.successor from_ a).x
        (maxBodyRadius M.wd + 1) (M.successor from_ a).t_u,
        MathConfig.normp ((M.successor from_ a).x.sub
          (body.pos (M.successor from_ a).t_u)) 2 ≤ body.radius) ↔
        M.detectCollision (M.successor from_ a).x (M.successor from_ a).t_u := Iff.rfl
    rw [hD]
    unfold ThrustActionModel.checkConstraints StateVertex.isValid
    simp only [← not_le]
    tauto
  constructor
  · unfold ThrustActionModel.apply
    by_cases h : M.checkConstraints (M.successor from_ a)
    · rw [if_pos h]
      constructor
      · intro hcontra; exact absurd hcontra (by simp)
      · intro hr; exact absurd h (key.mpr hr)
    · rw [if_neg h]
      exact ⟨fun _ => key.mp h, fun _ => rfl⟩
  · unfold ThrustActionModel.apply
    by_cases h : M.checkConstraints (M.successor from_ a)
    · right; rw [if_pos h]
    · left; rw [if_neg h]

-- ===================================================================
-- C4  (corrected at the norm = epsilon boundary)
-- ===================================================================

theorem floatEquals_zero_iff (n : ℝ) (hn : 0 ≤ n) :
    MathConfig.floatEquals n 0 ↔ n < MathConfig.eps := by
  unfold MathConfig.floatEquals
  rw [sub_zero, abs_of_nonneg hn]

theorem fromHomogeneous_toHomogeneous (A : Matrix) (h : A.Is2x1) :
    Matrix.fromHomogeneous (Matrix.toHomogeneous A) = A := by
  obtain ⟨a, b, rfl⟩ := exists_pair_of2x1 A h
  simp [Matrix.fromHomogeneous, Matrix.toHomogeneous, Matrix.get, Matrix.ofList]

theorem direction_is2x1 (from_ : StateVertex) (hv : from_.v.Is2x1) :
    (direction from_).Is2x1 := by
  unfold direction
  by_cases h : MathConfig.floatEquals (MathConfig.normp from_.v 2) 0
  · rw [if_pos h]; exact pair_is2x1 1 0
  · rw [if_neg h]
    obtain ⟨a, b, hab⟩ := exists_pair_of2x1 from_.v hv
    unfold MathConfig.normalized
    rw [hab, smul_pair]
    exact pair_is2x1 _ _

/-- C4 (amended): `enumerate` returns exactly
`|possible_directions| * |thrust_levels| + 1` actions, each with
`dt_global = dt_u`; the forward direction is the unit vector of `s.v`
when its norm is at least epsilon (not, as claimed, strictly greater)
and the x-axis unit vector otherwise; the last action is the coast
action with thrust level 0 and direction equal to forward. -/
theorem C4_enumerate_shape (M : ThrustActionModel) (from_ : StateVertex)
    (hv : from_.v.Is2x1) :
    (M.enumerate from_).length =
        M.possible_directions.length * M.spacecraft.thrust_levels.length + 1 ∧
    (∀ a ∈ M.enumerate from_, a.dt_global = M.tp.dt_u) ∧
    direction from_ = (if MathConfig.eps ≤ MathConfig.normp from_.v 2
        then MathConfig.normalized from_.v else Matrix.ofList 2 1 [1, 0]) ∧
    (M.enumerate from_).getLast? = some ⟨0, direction from_, M.tp.dt_u⟩ := by
  refine ⟨?_, ?_, ?_, ?_⟩
  · unfold ThrustActionModel.enumerate
    rw [List.length_append, List.length_flatMap]
    have h : (List.length ∘ fun angle =>
        M.spacecraft.thrust_levels.map (fun thrust_level =>
          (⟨thrust_level,
            Matrix.fromHomogeneous ((Matrix.rotate2d angle).mul
              (Matrix.toHomogeneous (direction from_))),
            M.tp.dt_u⟩ : ThrustAction))) = fun _ => M.spacecraft.thrust_levels.length := by
      funext angle; simp
    rw [h, List.map_const', List.sum_replicate, smul_eq_mul]
    simp
  · intro a ha
    unfold ThrustActionModel.enumerate at ha
    rcases List.mem_append.mp ha with h1 | h2
    · obtain ⟨angle, _, hmem⟩ := List.mem_flatMap.mp h1
      obtain ⟨lvl, _, rfl⟩ := List.mem_map.mp hmem
      rfl
    · rw [List.mem_singleton.mp h2]
  · unfold direction
    by_cases h : MathConfig.floatEquals (MathConfig.normp from_.v 2) 0
    · rw [if_pos h, if_neg]
      rw [floatEquals_zero_iff _ (normp_nonneg _ _)] at h
      exact not_le.mpr h
    · rw [if_neg h, if_pos]
      rw [floatEquals_zero_iff _ (normp_nonneg _ _)] at h
      exact not_lt.mp h
  · unfold ThrustActionModel.enumerate
    rw [List.getLast?_concat]
    rw [fromHomogeneous_toHomogeneous _ (direction_is2x1 from_ hv)]

/-- C4 counterexample: at velocity `(0, 1e-12)` the norm equals
epsilon exactly; it does not exceed epsilon, so the claim prescribes
the x-axis unit vector, but the code normalizes and returns `(0, 1)`. -/
theorem C4_counterexample :
    ¬ (MathConfig.eps < MathConfig.normp svEps.v 2) ∧
    direction svEps = Matrix.ofList 2 1 [0, 1] ∧
    Matrix.ofList 2 1 [0, 1] ≠ Matrix.ofList 2 1 [1, 0] := by
  have hv : svEps.v = Matrix.ofList 2 1 [0, 1e-12] := rfl
  have hnorm : MathConfig.normp svEps.v 2 = MathConfig.eps := by
    rw [hv, normp_pair]
    have h1 : |(0:ℝ)| ^ 2 + |(1e-12:ℝ)| ^ 2 = (1e-12 : ℝ) ^ (2:ℕ) := by
      norm_num
    rw [h1, rpow_half_sq _ (by norm_num)]
    rfl
  refine ⟨?_, ?_, ?_⟩
  · rw [hnorm]; exact lt_irrefl _
  · unfold direction
    rw [if_neg]
    · unfold MathConfig.normalized
      rw [hnorm, hv, smul_pair]
      unfold MathConfig.eps
      norm_num
    · rw [floatEquals_zero_iff _ (normp_nonneg _ _), hnorm]
      exact lt_irrefl _
  · intro h
    have hdata := congrArg Matrix.data h
    simp only [Matrix.ofList] at hdata
    have h0 : (0:ℝ) = 1 := by
      have := List.head_eq_of_cons_eq hdata
      exact this
    norm_num at h0

/-- C4 witness: the amended enumeration facts hold at the trivial
scenario (no candidate directions, thrust levels `[0]`). -/
theorem C4_enumerate_shape_witness :
    (tam0.enumerate sv0).length =
        tam0.possible_directions.length * tam0.spacecraft.thrust_levels.length + 1 ∧
    (tam0.enumerate sv0).getLast? = some ⟨0, direction sv0, tam0.tp.dt_u⟩ :=
  ⟨(C4_enumerate_shape tam0 sv0 (pair_is2x1 0 0)).1,
   (C4_enumerate_shape tam0 sv0 (pair_is2x1 0 0)).2.2.2⟩

-- ===================================================================
-- C7
-- ===================================================================

theorem discreteState_ext (d1 d2 : DiscreteState) (h1 : d1.qx = d2.qx)
    (h2 : d1.qv = d2.qv) (h3 : d1.qt_u = d2.qt_u) (h4 : d1.qfuel = d2.qfuel)
    (h5 : d1.collected_artifacts = d2.collected_artifacts) : d1 = d2 := by
  cases d1; cases d2; simp_all

theorem roundMat_lift_cancel (A : Matrix) (b : ℝ) (hb : b ≠ 0) :
    MathConfig.roundMat (((MathConfig.roundMat A).smul b).smul (1 / b)) =
      MathConfig.roundMat A := by
  simp only [MathConfig.roundMat, Matrix.smul, List.map_map]
  congr 1
  apply List.map_congr_left
  intro x _
  simp only [Function.comp]
  have h1 : (MathConfig.round x * b) * (1 / b) = MathConfig.round x := by
    field_simp
  rw [h1, round_round]

theorem round_lift_cancel (x b : ℝ) (hb : b ≠ 0) :
    MathConfig.round ((MathConfig.round x * b) / b) = MathConfig.round x := by
  rw [mul_div_cancel_right₀ _ hb, round_round]

/-- C7: the quantizer maps a state to the componentwise rounds of
position, velocity, time and fuel divided by their bin sizes, passing
the collected set through unchanged, and it is idempotent under the
bin-center lift. -/
theorem C7_quantizer_idempotent (cfg : QuantizerConfig) (hp : cfg.pos_bin ≠ 0)
    (hv : cfg.vel_bin ≠ 0) (ht : cfg.time_bin ≠ 0) (hf : cfg.fuel_bin ≠ 0) :
    (∀ sv : StateVertex,
      (Quantizer.q cfg sv).qx =
        ⟨sv.x.m, sv.x.n, sv.x.data.map (fun a => MathConfig.round (a / cfg.pos_bin))⟩ ∧
      (Quantizer.q cfg sv).qv =
        ⟨sv.v.m, sv.v.n, sv.v.data.map (fun a => MathConfig.round (a / cfg.vel_bin))⟩ ∧
      (Quantizer.q cfg sv).qt_u = MathConfig.round (sv.t_u / cfg.time_bin) ∧
      (Quantizer.q cfg sv).qfuel = MathConfig.round (sv.fuel / cfg.fuel_bin) ∧
      (Quantizer.q cfg sv).collected_artifacts = sv.collected_artifacts) ∧
    (∀ sv : StateVertex,
      Quantizer.q cfg (liftCenter cfg (Quantizer.q cfg sv)) = Quantizer.q cfg sv) := by
  constructor
  · intro sv
    refine ⟨?_, ?_, rfl, rfl, rfl⟩
    · show MathConfig.roundMat (sv.x.smul (1 / cfg.pos_bin)) = _
      simp only [MathConfig.roundMat, Matrix.smul, List.map_map]
      congr 1
      apply List.map_congr_left
      intro a _
      simp only [Function.comp]
      rw [mul_one_div]
    · show MathConfig.roundMat (sv.v.smul (1 / cfg.vel_bin)) = _
      simp only [MathConfig.roundMat, Matrix.smul, List.map_map]
      congr 1
      apply List.map_congr_left
      intro a _
      simp only [Function.comp]
      rw [mul_one_div]
  · intro sv
    refine discreteState_ext _ _ ?_ ?_ ?_ ?_ rfl
    · show MathConfig.roundMat
        (((MathConfig.roundMat (sv.x.smul (1 / cfg.pos_bin))).smul cfg.pos_bin).smul
          (1 / cfg.pos_bin)) = MathConfig.roundMat (sv.x.smul (1 / cfg.pos_bin))
      exact roundMat_lift_cancel _ _ hp
    · show MathConfig.roundMat
        (((MathConfig.roundMat (sv.v.smul (1 / cfg.vel_bin))).smul cfg.vel_bin).smul
          (1 / cfg.vel_bin)) = MathConfig.roundMat (sv.v.smul (1 / cfg.vel_bin))
      exact roundMat_lift_cancel _ _ hv
    · show MathConfig.round ((MathConfig.round (sv.t_u / cfg.time_bin) * cfg.time_bin) /
        cfg.time_bin) = MathConfig.round (sv.t_u / cfg.time_bin)
      exact round_lift_cancel _ _ ht
    · show MathConfig.round ((MathConfig.round (sv.fuel / cfg.fuel_bin) * cfg.fuel_bin) /
        cfg.fuel_bin) = MathConfig.round (sv.fuel / cfg.fuel_bin)
      exact round_lift_cancel _ _ hf

/-- C7 witness: quantizer idempotence under the bin-center lift at unit
bins and the origin state. -/
theorem C7_quantizer_idempotent_witness :
    Quantizer.q ⟨1, 1, 1, 1⟩ (liftCenter ⟨1, 1, 1, 1⟩ (Quantizer.q ⟨1, 1, 1, 1⟩ sv0)) =
      Quantizer.q ⟨1, 1, 1, 1⟩ sv0 :=
  (C7_quantizer_idempotent ⟨1, 1, 1, 1⟩ (by norm_num) (by norm_num) (by norm_num)
    (by norm_num)).2 sv0

-- ===================================================================
-- C5
-- ===================================================================

theorem grid_getD (h w : ℕ) (f : ℕ → ℕ → ℝ) (i j : ℕ) (hi : i < h) (hj : j < w) :
    (Matrix.grid h w f).getD (i * w + j) 0 = f i j := by
  unfold Matrix.grid
  have hwpos : 0 < w := by omega
  have hlt : i * w + j < h * w := by
    calc i * w + j < i * w + w := by omega
    _ = (i + 1) * w := by ring
    _ ≤ h * w := Nat.mul_le_mul_right w hi
  rw [List.getD_eq_getElem?_getD, List.getElem?_map, List.getElem?_range hlt]
  simp only [Option.map_some', Option.getD_some]
  have hdiv : (i * w + j) / w = i := by
    rw [Nat.add_comm, Nat.add_mul_div_right _ _ hwpos, Nat.div_eq_of_lt hj]
    omega
  have hmod : (i * w + j) % w = j := by
    rw [Nat.add_comm, Nat.add_mul_mod_self_right, Nat.mod_eq_of_lt hj]
  rw [hdiv, hmod]

theorem mul_get (A B : Matrix) (i j : ℕ) (hi : i < A.m) (hj : j < B.n) :
    (A.mul B).get i j = ∑ k ∈ Finset.range A.n, A.get i k * B.get k j := by
  unfold Matrix.mul Matrix.get
  dsimp only
  exact grid_getD A.m B.n _ i j hi hj

theorem transpose_get (A : Matrix) (i j : ℕ) (hi : i < A.n) (hj : j < A.m) :
    A.transpose.get i j = A.get j i := by
  unfold Matrix.transpose Matrix.get
  dsimp only
  exact grid_getD A.n A.m _ i j hi hj

theorem dot_self_eq_sum (v : Matrix) (hn : v.n = 1) :
    MathConfig.dot v v = ∑ k ∈ Finset.range v.m, v.get k 0 ^ 2 := by
  unfold MathConfig.dot
  have h0 : (0:ℕ) < v.transpose.m := by
    show 0 < v.n; omega
  have hj : (0:ℕ) < v.n := by omega
  rw [mul_get _ _ 0 0 h0 hj]
  have hTn : v.transpose.n = v.m := rfl
  rw [hTn]
  refine Finset.sum_congr rfl ?_
  intro k hk
  rw [transpose_get v 0 k (by omega) (Finset.mem_range.mp hk), sq]

theorem dot_self_eq_normp_sq (v : Matrix) (hn : v.n = 1) :
    MathConfig.dot v v = MathConfig.normp v 2 ^ (2:ℕ) := by
  rw [dot_self_eq_sum v hn, normp_sq_eq_sum]

theorem foldl_add_sum {α : Type} (f : α → ℝ) (l : List α) :
    ∀ s, l.foldl (fun acc x => acc + f x) s = s + (l.map f).sum := by
  induction l with
  | nil => intro s; simp
  | cons x rest ih => intro s; simp [ih, add_assoc]

theorem foldl_matrix_add_pairs (g : CelestialBody → Matrix) (l : List CelestialBody)
    (hg : ∀ b ∈ l, (g b).Is2x1) :
    ∀ p q : ℝ, l.foldl (fun a b => a.add (g b)) (Matrix.ofList 2 1 [p, q]) =
      Matrix.ofList 2 1 [p + (l.map (fun b => (g b).get 0 0)).sum,
                         q + (l.map (fun b => (g b).get 1 0)).sum] := by
  induction l with
  | nil => intro p q; simp
  | cons b rest ih =>
    intro p q
    simp only [List.foldl_cons, List.map_cons, List.sum_cons]
    obtain ⟨gb0, gb1, hgb⟩ := exists_pair_of2x1 (g b) (hg b (by simp))
    rw [hgb, add_pair, ih (fun b2 hb2 => hg b2 (by simp [hb2]))]
    simp [get_ofList2, add_assoc]

/-- C5: the environment model computes gravity as the body-wise sum of
`G m_i (r_i - x) / (‖r_i - x‖³ + ε)`, the potential as minus the sum
of `G m_i / (‖r_i - x‖ + ε)`, and gamma as
`1 / (1 + Φ/c² - ‖v‖²/(2c²))`. -/
theorem C5_environment_model (wd : WorldData) (x v : Matrix) (t_u : ℝ)
    (hx : x.Is2x1) (hv : v.Is2x1) (hb : ∀ b ∈ wd.bodies, (b.pos t_u).Is2x1) :
    ConcreteEnvironment.gravity wd x t_u = Matrix.ofList 2 1
        [(wd.bodies.map (fun b => MathConfig.G * b.mass * ((b.pos t_u).get 0 0 - x.get 0 0) /
            (MathConfig.normp ((b.pos t_u).sub x) 2 ^ 3 + MathConfig.eps))).sum,
         (wd.bodies.map (fun b => MathConfig.G * b.mass * ((b.pos t_u).get 1 0 - x.get 1 0) /
            (MathConfig.normp ((b.pos t_u).sub x) 2 ^ 3 + MathConfig.eps))).sum] ∧
    ConcreteEnvironment.potential wd x t_u =
      -(wd.bodies.map (fun b => MathConfig.G * b.mass /
          (MathConfig.normp ((b.pos t_u).sub x) 2 + MathConfig.eps))).sum ∧
    ConcreteEnvironment.gamma wd x v t_u =
      1 / (1 + ConcreteEnvironment.potential wd x t_u / MathConfig.c ^ 2 -
        MathConfig.normp v 2 ^ 2 / (2 * MathConfig.c ^ 2)) := by
  obtain ⟨x0, x1, hxp⟩ := exists_pair_of2x1 x hx
  have hterm : ∀ i : ℕ, i < 2 → ∀ b ∈ wd.bodies,
      (((b.pos t_u).sub x).smul
        (MathConfig.G * b.mass *
          MathConfig.epsilonDiv 1
            (MathConfig.normp ((b.pos t_u).sub x) 2 *
             MathConfig.normp ((b.pos t_u).sub x) 2 *
             MathConfig.normp ((b.pos t_u).sub x) 2))).get i 0 =
      MathConfig.G * b.mass * ((b.pos t_u).get i 0 - x.get i 0) /
        (MathConfig.normp ((b.pos t_u).sub x) 2 ^ 3 + MathConfig.eps) := by
    intro i hi b hbm
    obtain ⟨p0, p1, hp⟩ := exists_pair_of2x1 (b.pos t_u) (hb b hbm)
    rw [hxp, hp, sub_pair, smul_pair]
    unfold MathConfig.epsilonDiv
    interval_cases i
    · rw [get_ofList2, get_ofList2, get_ofList2]
      simp only [List.getD_cons_zero]
      ring
    · rw [get_ofList2, get_ofList2, get_ofList2]
      simp only [List.getD_cons_succ, List.getD_cons_zero]
      ring
  refine ⟨?_, ?_, ?_⟩
  · unfold ConcreteEnvironment.gravity
    rw [fill_two,
      foldl_matrix_add_pairs _ wd.bodies (fun b hbm => by
        obtain ⟨p0, p1, hp⟩ := exists_pair_of2x1 (b.pos t_u) (hb b hbm)
        rw [hxp, hp, sub_pair, smul_pair]
        exact pair_is2x1 _ _)]
    have e0 := List.map_congr_left (l := wd.bodies) (hterm 0 (by omega))
    have e1 := List.map_congr_left (l := wd.bodies) (hterm 1 (by omega))
    rw [e0, e1, zero_add, zero_add]
  · unfold ConcreteEnvironment.potential
    rw [foldl_add_sum (fun body => MathConfig.epsilonDiv (MathConfig.G * body.mass)
      (MathConfig.normp ((body.pos t_u).sub x) 2)) wd.bodies 0, zero_add]
    have e : List.map (fun body => MathConfig.epsilonDiv (MathConfig.G * body.mass)
        (MathConfig.normp ((body.pos t_u).sub x) 2)) wd.bodies =
        List.map (fun b => MathConfig.G * b.mass /
          (MathConfig.normp ((b.pos t_u).sub x) 2 + MathConfig.eps)) wd.bodies :=
      List.map_congr_left (fun b _ => rfl)
    rw [e]
    ring
  · unfold ConcreteEnvironment.gamma
    rw [dot_self_eq_normp_sq v hv.2.1]
    have hc : MathConfig.c * MathConfig.c = MathConfig.c ^ 2 := by ring
    rw [hc]

/-- C5 witness: the environment formulas hold in the empty universe at
position `(1, 0)` and velocity `(0, 0)`. -/
theorem C5_environment_model_witness :
    ConcreteEnvironment.potential tam0.wd (Matrix.ofList 2 1 [1, 0]) 0 =
      -((tam0.wd.bodies.map (fun b => MathConfig.G * b.mass /
          (MathConfig.normp ((b.pos 0).sub (Matrix.ofList 2 1 [1, 0])) 2 +
            MathConfig.eps))).sum) ∧
    ConcreteEnvironment.gamma tam0.wd (Matrix.ofList 2 1 [1, 0]) (Matrix.ofList 2 1 [0, 0]) 0 =
      1 / (1 + ConcreteEnvironment.potential tam0.wd (Matrix.ofList 2 1 [1, 0]) 0 /
          MathConfig.c ^ 2 -
        MathConfig.normp (Matrix.ofList 2 1 [0, 0]) 2 ^ 2 / (2 * MathConfig.c ^ 2)) :=
  ⟨(C5_environment_model tam0.wd (Matrix.ofList 2 1 [1, 0]) (Matrix.ofList 2 1 [0, 0]) 0
      (pair_is2x1 1 0) (pair_is2x1 0 0) (fun b hbm => absurd hbm (List.not_mem_nil b))).2.1,
   (C5_environment_model tam0.wd (Matrix.ofList 2 1 [1, 0]) (Matrix.ofList 2 1 [0, 0]) 0
      (pair_is2x1 1 0) (pair_is2x1 0 0) (fun b hbm => absurd hbm (List.not_mem_nil b))).2.2⟩

-- ===================================================================
-- C9
-- ===================================================================

theorem toProperAux_eq (wd : WorldData) (x v : Matrix) (t_end : ℝ) :
    ∀ (n : ℕ) (t acc : ℝ), (⌈(t_end - t) / 0.01⌉).toNat = n →
    toProperAux wd x v t_end t acc =
      acc + ∑ k ∈ Finset.range n,
        0.01 * ConcreteEnvironment.invGamma wd x v (t + 0.01 * k) := by
  intro n
  induction n with
  | zero =>
    intro t acc h0
    rw [toProperAux, dif_neg]
    · simp
    · intro hlt
      have hpos : (0:ℝ) < (t_end - t) / 0.01 := div_pos (by linarith) (by norm_num)
      have hc : 0 < ⌈(t_end - t) / 0.01⌉ := Int.ceil_pos.mpr hpos
      omega
  | succ n ih =>
    intro t acc h
    have hlt : t < t_end := by
      by_contra hge
      push_neg at hge
      have hc : ⌈(t_end - t) / 0.01⌉ ≤ 0 := by
        have h9 := Int.ceil_le.mpr (show (t_end - t) / 0.01 ≤ ((0:ℤ):ℝ) by
          push_cast
          apply div_nonpos_iff.mpr
          right
          constructor <;> [linarith; norm_num])
        exact h9
      omega
    rw [toProperAux, dif_pos hlt]
    have hnext : (⌈(t_end - (t + 0.01)) / 0.01⌉).toNat = n := by
      have h2 : (t_end - (t + 0.01)) / 0.01 = (t_end - t) / 0.01 - 1 := by ring
      have h5 : ⌈(t_end - (t + 0.01)) / 0.01⌉ = ⌈(t_end - t) / 0.01⌉ - 1 := by
        rw [h2]; exact_mod_cast Int.ceil_sub_int ((t_end - t) / 0.01) 1
      have hpos : (0:ℝ) < (t_end - t) / 0.01 := div_pos (by linarith) (by norm_num)
      have hcpos : 0 < ⌈(t_end - t) / 0.01⌉ := Int.ceil_pos.mpr hpos
      omega
    rw [ih (t + 0.01) _ hnext, Finset.sum_range_succ']
    have hsum2 : ∀ k ∈ Finset.range n,
        (0.01:ℝ) * ConcreteEnvironment.invGamma wd x v (t + 0.01 * (((k + 1 : ℕ) : ℕ) : ℝ)) =
        0.01 * ConcreteEnvironment.invGamma wd x v ((t + 0.01) + 0.01 * (k : ℝ)) := by
      intro k _
      have harg : t + 0.01 * (((k + 1 : ℕ) : ℕ) : ℝ) = (t + 0.01) + 0.01 * (k : ℝ) := by
        push_cast
        ring
      rw [harg]
    rw [Finset.sum_congr rfl hsum2]
    simp only [Nat.cast_zero, mul_zero, add_zero]
    ring

/-- C9: `toProper(dt_u, x, v, t_u)` is the left rectangle sum of
`invGamma(x, v, t)` with fixed step 0.01, holding x and v constant:
the sum of `0.01 * invGamma(x, v, t_u + 0.01 k)` over exactly those k
with `t_u + 0.01 k < t_u + dt_u`. -/
theorem C9_toProper_rectangle_sum :
    ∀ (wd : WorldData) (dt_u : ℝ) (x v : Matrix) (t_u : ℝ),
    toProper wd dt_u x v t_u =
      (∑ k ∈ Finset.range ((⌈dt_u / 0.01⌉).toNat),
        0.01 * ConcreteEnvironment.invGamma wd x v (t_u + 0.01 * k)) ∧
    ∀ k : ℕ, k < (⌈dt_u / 0.01⌉).toNat ↔ t_u + 0.01 * k < t_u + dt_u := by
  intro wd dt_u x v t_u
  constructor
  · unfold toProper
    have harg : (t_u + dt_u) - t_u = dt_u := by ring
    rw [toProperAux_eq wd x v (t_u + dt_u) ((⌈dt_u / 0.01⌉).toNat) t_u 0 (by rw [harg]),
      zero_add]
  · intro k
    rw [Int.lt_toNat, Int.lt_ceil]
    rw [lt_div_iff (by norm_num : (0:ℝ) < 0.01)]
    push_cast
    constructor <;> intro h9 <;> linarith

-- ===================================================================
-- Solver lemmas (shared by C1, C3, C6, C8)
-- ===================================================================

section SolverProofs

variable {σ α κ : Type} [DecidableEq κ]
variable (q : σ → κ) (neighbors : σ → List (σ × α)) (isGoal : σ → Bool) (cost : α → ℝ)

theorem pmFind_cons_self (pm : List (κ × (σ × α))) (k : κ) (e : σ × α) :
    pmFind ((k, e) :: pm) k = some e := by
  simp [pmFind]

theorem pmFind_cons_ne (pm : List (κ × (σ × α))) (k k2 : κ) (e : σ × α) (h : k ≠ k2) :
    pmFind ((k2, e) :: pm) k = pmFind pm k := by
  simp [pmFind, h]

theorem pmFind_mem_of_some (pm : List (κ × (σ × α))) (k : κ) (e : σ × α)
    (h : pmFind pm k = some e) : k ∈ pm.map Prod.fst := by
  induction pm with
  | nil => simp [pmFind] at h
  | cons hd tl ih =>
    obtain ⟨k2, e2⟩ := hd
    by_cases hk : k = k2
    · subst hk; simp
    · rw [pmFind_cons_ne _ _ _ _ hk] at h
      simp [ih h]

theorem parentChain_mono (start : σ) (pm : List (κ × (σ × α))) (k2 : κ) (e : σ × α)
    (hk2 : k2 ∉ pm.map Prod.fst) {s : σ} {n : ℕ}
    (h : ParentChain q neighbors start pm s n) :
    ParentChain q neighbors start ((k2, e) :: pm) s n := by
  induction h with
  | base => exact ParentChain.base
  | step hfind hmem _ ih =>
    refine ParentChain.step ?_ hmem ih
    have hne : _ ≠ k2 := fun hq => hk2 (hq ▸ pmFind_mem_of_some _ _ _ hfind)
    rw [pmFind_cons_ne _ _ _ _ hne]
    exact hfind

/-- One neighbor-processing step preserves the solver invariant, keeps
the expanding state reachable, and never shrinks the parent map. -/
theorem expandStep_inv (start cur : σ) (vis : List κ) (pm : List (κ × (σ × α)))
    (qu : List σ) (nb : σ × α) (hnb : nb ∈ neighbors cur)
    (hcur : ∃ n ≤ pm.length, ParentChain q neighbors start pm cur n)
    (hinv : SolveInv q neighbors start qu vis pm) :
    SolveInv q neighbors start (expandStep q cur (vis, pm, qu) nb).2.2
      (expandStep q cur (vis, pm, qu) nb).1 (expandStep q cur (vis, pm, qu) nb).2.1 ∧
    (∃ n ≤ (expandStep q cur (vis, pm, qu) nb).2.1.length,
      ParentChain q neighbors start (expandStep q cur (vis, pm, qu) nb).2.1 cur n) ∧
    pm.length ≤ (expandStep q cur (vis, pm, qu) nb).2.1.length := by
  obtain ⟨hs0, hnd, hsub, hvnd, hsv, hqu⟩ := hinv
  by_cases hmem : q nb.1 ∈ vis
  · have hst : expandStep q cur (vis, pm, qu) nb = (vis, pm, qu) := by
      simp [expandStep, hmem]
    rw [hst]
    exact ⟨⟨hs0, hnd, hsub, hvnd, hsv, hqu⟩, hcur, le_refl _⟩
  · have hst : expandStep q cur (vis, pm, qu) nb =
        (q nb.1 :: vis, (q nb.1, (cur, nb.2)) :: pm, qu ++ [nb.1]) := by
      simp [expandStep, hmem]
    rw [hst]
    have hknotpm : q nb.1 ∉ pm.map Prod.fst := fun hin => hmem (hsub _ hin)
    obtain ⟨nc, hnc, hchainc⟩ := hcur
    have hchainc2 : ParentChain q neighbors start ((q nb.1, (cur, nb.2)) :: pm) cur nc :=
      parentChain_mono q neighbors start pm _ _ hknotpm hchainc
    refine ⟨⟨?_, ?_, ?_, ?_, ?_, ?_⟩, ?_, ?_⟩
    · have hne : q start ≠ q nb.1 := fun hq => hmem (hq ▸ hsv)
      rw [pmFind_cons_ne _ _ _ _ hne]
      exact hs0
    · simp only [List.map_cons]
      exact List.Nodup.cons hknotpm hnd
    · intro k hk
      simp only [List.map_cons, List.mem_cons] at hk
      rcases hk with hk | hk
      · simp [hk]
      · simp [hsub k hk]
    · exact List.Nodup.cons hmem hvnd
    · simp [hsv]
    · intro s hs
      rcases List.mem_append.mp hs with hs | hs
      · obtain ⟨n, hn, hchain⟩ := hqu s hs
        exact ⟨n, by simp; omega,
          parentChain_mono q neighbors start pm _ _ hknotpm hchain⟩
      · rw [List.mem_singleton.mp hs]
        refine ⟨nc + 1, by simp; omega, ?_⟩
        exact ParentChain.step (pmFind_cons_self pm (q nb.1) (cur, nb.2))
          (by rw [Prod.mk.eta]; exact hnb) hchainc2
    · exact ⟨nc, by simp; omega, hchainc2⟩
    · simp

/-- Folding the neighbor-processing step over any sublist of
`neighbors cur` preserves the solver invariant. -/
theorem expandFold_inv (start cur : σ) (nbs : List (σ × α))
    (hnbs : ∀ x ∈ nbs, x ∈ neighbors cur) :
    ∀ (vis : List κ) (pm : List (κ × (σ × α))) (qu : List σ),
    SolveInv q neighbors start qu vis pm →
    (∃ n ≤ pm.length, ParentChain q neighbors start pm cur n) →
    SolveInv q neighbors start (nbs.foldl (expandStep q cur) (vis, pm, qu)).2.2
      (nbs.foldl (expandStep q cur) (vis, pm, qu)).1
      (nbs.foldl (expandStep q cur) (vis, pm, qu)).2.1 := by
  induction nbs with
  | nil => intro vis pm qu hinv _; exact hinv
  | cons nb rest ih =>
    intro vis pm qu hinv hcur
    have h1 := expandStep_inv q neighbors start cur vis pm qu nb
      (hnbs nb (by simp)) hcur hinv
    simp only [List.foldl_cons]
    have hstep : expandStep q cur (vis, pm, qu) nb =
        ((expandStep q cur (vis, pm, qu) nb).1,
         (expandStep q cur (vis, pm, qu) nb).2.1,
         (expandStep q cur (vis, pm, qu) nb).2.2) := rfl
    rw [hstep]
    exact ih (fun x hx => hnbs x (by simp [hx])) _ _ _ h1.1 h1.2.1

/-- The relation between consecutive elements of the walk list built by
`Solver::reconstruct` before the final reversal: the later element
carries the edge action leading from its own state into the earlier
element's state. -/
def WalkRel (x y : σ × Option α) : Prop :=
  ∃ b, y.2 = some b ∧ (x.1, b) ∈ neighbors y.1

/-- `reconstructAux`, fed a state with a parent chain of length `n` and
at least `n` remaining fuel, appends the full chain down to the start,
with every appended element after the first carrying an edge action. -/
theorem reconstructAux_spec (pm : List (κ × (σ × α))) (start : σ)
    (hstart : pmFind pm (q start) = none) {s : σ} {n : ℕ}
    (hchain : ParentChain q neighbors start pm s n) :
    ∀ (f : ℕ), n ≤ f → ∀ (a : Option α) (acc : List (σ × Option α)),
    ∃ L, reconstructAux q pm f s a acc = acc ++ (s, a) :: L ∧
      (∃ p2, ((s, a) :: L).getLast? = some p2 ∧ p2.1 = start) ∧
      List.Chain' (WalkRel neighbors) ((s, a) :: L) ∧
      (∀ e ∈ L, e.2 ≠ none) := by
  induction hchain with
  | base =>
    intro f _ a acc
    refine ⟨[], ?_, ⟨(start, a), rfl, rfl⟩, ?_, ?_⟩
    · cases f with
      | zero => rfl
      | succ f2 =>
        show (match pmFind pm (q start) with
          | none => acc ++ [(start, a)]
          | some (p, pa) => reconstructAux q pm f2 p (some pa) (acc ++ [(start, a)])) = _
        rw [hstart]
    · exact List.chain'_singleton _
    · intro e he; exact absurd he (List.not_mem_nil e)
  | step hfind hmem hrest ih =>
    rename_i s2 p a2 n2
    intro f hf a acc
    cases f with
    | zero => omega
    | succ f2 =>
      have hrec : reconstructAux q pm (f2 + 1) s2 a acc =
          reconstructAux q pm f2 p (some a2) (acc ++ [(s2, a)]) := by
        show (match pmFind pm (q s2) with
          | none => acc ++ [(s2, a)]
          | some (p2, pa) => reconstructAux q pm f2 p2 (some pa) (acc ++ [(s2, a)])) = _
        rw [hfind]
      obtain ⟨L2, hL2, ⟨p2, hlast, hp2⟩, hch, hsome⟩ :=
        ih f2 (by omega) (some a2) (acc ++ [(s2, a)])
      refine ⟨(p, some a2) :: L2, ?_, ⟨p2, ?_, hp2⟩, ?_, ?_⟩
      · rw [hrec, hL2, List.append_assoc]
        rfl
      · rw [List.getLast?_cons_cons]
        exact hlast
      · rw [List.chain'_cons]
        exact ⟨⟨a2, rfl, hmem⟩, hch⟩
      · intro e he
        rcases List.mem_cons.mp he with he | he
        · rw [he]; simp
        · exact hsome e he

/-- `computeCost` is the sum of the per-element cost contributions of
all path elements but the last. -/
theorem computeCost_eq_sum (path : List (σ × Option α)) :
    computeCost cost path = ((path.take (path.length - 1)).map (edgeCost cost)).sum := by
  unfold computeCost
  rw [foldl_add_sum (edgeCost cost) (path.take (path.length - 1)) 0, zero_add]

/-- What `Solver::reconstruct` returns for a reachable goal state: the
path starts at the start vertex, ends with the goal paired with the
null action, every consecutive pair is joined by the recorded edge
action of the earlier element, and only the last element lacks an
action. -/
theorem reconstruct_spec (pm : List (κ × (σ × α))) (start goal : σ)
    (hstart : pmFind pm (q start) = none) {n : ℕ}
    (hchain : ParentChain q neighbors start pm goal n) (hn : n ≤ pm.length) :
    (reconstruct q goal pm).head?.map Prod.fst = some start ∧
    (reconstruct q goal pm).getLast? = some (goal, none) ∧
    List.Chain' (fun u w => ∃ b, u.2 = some b ∧ (w.1, b) ∈ neighbors u.1)
      (reconstruct q goal pm) ∧
    (∀ e ∈ (reconstruct q goal pm).take ((reconstruct q goal pm).length - 1),
      e.2 ≠ none) := by
  obtain ⟨L, hL, ⟨p2, hlast, hp2⟩, hch, hsome⟩ :=
    reconstructAux_spec q neighbors pm start hstart hchain (pm.length + 1) (by omega)
      none []
  unfold reconstruct
  rw [hL, List.nil_append]
  refine ⟨?_, ?_, ?_, ?_⟩
  · rw [List.head?_reverse, hlast]
    simp [hp2]
  · rw [List.getLast?_reverse]
    rfl
  · rw [List.chain'_reverse]
    have hflip : (flip fun u w => ∃ b, u.2 = some b ∧ (w.1, b) ∈ neighbors u.1) =
        WalkRel neighbors := by
      funext x y
      rfl
    rw [hflip]
    exact hch
  · intro e he
    have hrw : ((goal, (none : Option α)) :: L).reverse =
        L.reverse ++ [(goal, none)] := by simp
    rw [hrw] at he
    have hlen : (L.reverse ++ [(goal, (none : Option α))]).length - 1 =
        L.reverse.length := by simp
    rw [hlen, List.take_left] at he
    exact hsome e (List.mem_reverse.mp he)

/-- The invariant at the top of `Solver::solve`: the start pushed, its
key visited, the parent map empty. -/
theorem solve_init_inv (start : σ) :
    SolveInv q neighbors start [start] [q start] ([] : List (κ × (σ × α))) := by
  refine ⟨rfl, by simp, by simp, by simp, by simp, ?_⟩
  intro s hs
  exact ⟨0, by simp, by rw [List.mem_singleton.mp hs]; exact ParentChain.base⟩

/-- The search loop only ever returns paths of the shape established by
`reconstruct_spec`, with `total_cost` the fold of `computeCost`. -/
theorem solveLoop_spec (start : σ) :
    ∀ (fuel : ℕ) (qu : List σ) (vis : List κ) (pm : List (κ × (σ × α)))
      (res : SolverResult σ α),
    SolveInv q neighbors start qu vis pm →
    solveLoop q neighbors isGoal cost fuel qu vis pm = some (some res) →
    res.path.head?.map Prod.fst = some start ∧
    res.path.getLast?.map Prod.snd = some none ∧
    List.Chain' (fun u w => ∃ b, u.2 = some b ∧ (w.1, b) ∈ neighbors u.1) res.path ∧
    (∀ e ∈ res.path.take (res.path.length - 1), e.2 ≠ none) ∧
    res.total_cost = ((res.path.take (res.path.length - 1)).map (edgeCost cost)).sum := by
  intro fuel
  induction fuel with
  | zero =>
    intro qu vis pm res hinv hrun
    exact absurd hrun (by simp [solveLoop])
  | succ f ih =>
    intro qu vis pm res hinv hrun
    cases qu with
    | nil =>
      rw [solveLoop] at hrun
      simp at hrun
    | cons cur rest =>
      rw [solveLoop] at hrun
      by_cases hgoal : isGoal cur = true
      · rw [if_pos hgoal] at hrun
        simp only [Option.some.injEq] at hrun
        obtain ⟨n, hn, hchain⟩ := hinv.2.2.2.2.2 cur (by simp)
        have hrs := reconstruct_spec q neighbors pm start cur hinv.1 hchain hn
        rw [← hrun]
        refine ⟨hrs.1, ?_, hrs.2.2.1, hrs.2.2.2, ?_⟩
        · show (reconstruct q cur pm).getLast?.map Prod.snd = some none
          rw [hrs.2.1]
          rfl
        · exact computeCost_eq_sum cost (reconstruct q cur pm)
      · rw [if_neg hgoal] at hrun
        have hinv2 : SolveInv q neighbors start rest vis pm :=
          ⟨hinv.1, hinv.2.1, hinv.2.2.1, hinv.2.2.2.1, hinv.2.2.2.2.1,
           fun s hs => hinv.2.2.2.2.2 s (by simp [hs])⟩
        have hcur := hinv.2.2.2.2.2 cur (by simp)
        have hinv3 := expandFold_inv q neighbors start cur (neighbors cur)
          (fun x hx => hx) vis pm rest hinv2 hcur
        exact ih _ _ _ res hinv3 hrun

end SolverProofs

-- ===================================================================
-- C1  (corrected: the null action sits on the last path element)
-- ===================================================================

/-- C1 (amended): for every `SolverResult` returned by `Solver::solve`,
the first path element's state is the start vertex, the LAST element
(not the first) carries the null action, every non-final element's
action is the edge taken from that element's state to the next
element's state (not the edge into it), and `total_cost` is the sum
of the action costs of all elements except the last — equivalently,
of all edges. -/
theorem C1_path_layout {σ α κ : Type} [DecidableEq κ] (q : σ → κ)
    (neighbors : σ → List (σ × α)) (isGoal : σ → Bool) (cost : α → ℝ)
    (start : σ) (fuel : ℕ) (res : SolverResult σ α)
    (h : solve q neighbors isGoal cost start fuel = some (some res)) :
    res.path.head?.map Prod.fst = some start ∧
    res.path.getLast?.map Prod.snd = some none ∧
    List.Chain' (fun u w => ∃ b, u.2 = some b ∧ (w.1, b) ∈ neighbors u.1) res.path ∧
    (∀ e ∈ res.path.take (res.path.length - 1), e.2 ≠ none) ∧
    res.total_cost = ((res.path.take (res.path.length - 1)).map (edgeCost cost)).sum := by
  unfold solve at h
  exact solveLoop_spec q neighbors isGoal cost start fuel [start] [q start] [] res
    (solve_init_inv q neighbors start) h

/-- C1 counterexample: on the two-node graph, the returned path is
`[(0, some ()), (1, none)]` — the FIRST element carries the edge
action and the LAST carries the null action, refuting the claimed
layout `[(0, none), (1, some ())]`; moreover the claimed
`total_cost = Σ cost(path[i≥1].action)` would be 0 while the actual
total cost is the full edge cost 1. -/
theorem C1_counterexample :
    (c1solve 3).map (Option.map (fun r => r.path.map Prod.snd)) =
      some (some [some (), none]) ∧
    [some (), (none : Option Unit)] ≠ [none, some ()] ∧
    (c1solve 3).map (Option.map (fun r => r.path.map Prod.fst)) = some (some [0, 1]) ∧
    (c1solve 3).map (Option.map SolverResult.total_cost) = some (some (0 + c1cost ())) ∧
    (0 : ℝ) + c1cost () = 1 := by
  refine ⟨rfl, by simp, rfl, rfl, by norm_num [c1cost]⟩

/-- C1 witness: the amended layout, checked on the concrete two-node
run. -/
theorem C1_path_layout_witness :
    (c1solve 3).map (Option.map (fun r => (r.path.head?.map Prod.fst,
      r.path.getLast?.map Prod.snd))) = some (some (some 0, some none)) := by
  have hres : c1solve 3 = some (some ⟨[(0, some ()), (1, none)], 0 + c1cost ()⟩) := rfl
  have hspec := C1_path_layout (σ := ℕ) (κ := ℕ) id c1neighbors c1goal c1cost 0 3 _ hres
  rw [hres]
  simp only [Option.map_some']
  rw [hspec.1, hspec.2.1]

-- ===================================================================
-- C3
-- ===================================================================

section KeyProofs

variable {σ α κ : Type} [DecidableEq κ]
variable (q : σ → κ)

theorem expandStep_keeps (cur : σ) (vis : List κ) (pm : List (κ × (σ × α)))
    (qu : List σ) (s2 : σ) (a : α) (h : q s2 ∈ vis) :
    expandStep q cur (vis, pm, qu) (s2, a) = (vis, pm, qu) := by
  simp [expandStep, h]

theorem expandStep_pushes (cur : σ) (vis : List κ) (pm : List (κ × (σ × α)))
    (qu : List σ) (s2 : σ) (a : α) (h : q s2 ∉ vis) :
    expandStep q cur (vis, pm, qu) (s2, a) =
      (q s2 :: vis, (q s2, (cur, a)) :: pm, qu ++ [s2]) := by
  simp [expandStep, h]

theorem expandStep_keeps_iff (cur : σ) (vis : List κ) (pm : List (κ × (σ × α)))
    (qu : List σ) (s2 : σ) (a : α) :
    expandStep q cur (vis, pm, qu) (s2, a) = (vis, pm, qu) ↔ q s2 ∈ vis := by
  constructor
  · intro h
    by_contra hmem
    rw [expandStep_pushes q cur vis pm qu s2 a hmem] at h
    have hlen := congrArg (fun st => st.1.length) h
    simp at hlen
  · exact expandStep_keeps q cur vis pm qu s2 a

theorem expandStep_keys (cur : σ) (vis : List κ) (pm : List (κ × (σ × α)))
    (qu : List σ) (nb : σ × α) (h1 : vis.Nodup) (h2 : (pm.map Prod.fst).Nodup)
    (h3 : ∀ k ∈ pm.map Prod.fst, k ∈ vis) :
    (expandStep q cur (vis, pm, qu) nb).1.Nodup ∧
    ((expandStep q cur (vis, pm, qu) nb).2.1.map Prod.fst).Nodup ∧
    (∀ k ∈ (expandStep q cur (vis, pm, qu) nb).2.1.map Prod.fst,
      k ∈ (expandStep q cur (vis, pm, qu) nb).1) := by
  by_cases hmem : q nb.1 ∈ vis
  · have hst : expandStep q cur (vis, pm, qu) nb = (vis, pm, qu) := by
      simp [expandStep, hmem]
    rw [hst]
    exact ⟨h1, h2, h3⟩
  · have hst : expandStep q cur (vis, pm, qu) nb =
        (q nb.1 :: vis, (q nb.1, (cur, nb.2)) :: pm, qu ++ [nb.1]) := by
      simp [expandStep, hmem]
    rw [hst]
    refine ⟨List.Nodup.cons hmem h1, ?_, ?_⟩
    · simp only [List.map_cons]
      exact List.Nodup.cons (fun hin => hmem (h3 _ hin)) h2
    · intro k hk
      simp only [List.map_cons, List.mem_cons] at hk
      rcases hk with hk | hk
      · simp [hk]
      · simp [h3 k hk]

theorem expandFold_keys (cur : σ) (nbs : List (σ × α)) :
    ∀ (vis : List κ) (pm : List (κ × (σ × α))) (qu : List σ),
    vis.Nodup → (pm.map Prod.fst).Nodup → (∀ k ∈ pm.map Prod.fst, k ∈ vis) →
    (nbs.foldl (expandStep q cur) (vis, pm, qu)).1.Nodup ∧
    ((nbs.foldl (expandStep q cur) (vis, pm, qu)).2.1.map Prod.fst).Nodup ∧
    (∀ k ∈ (nbs.foldl (expandStep q cur) (vis, pm, qu)).2.1.map Prod.fst,
      k ∈ (nbs.foldl (expandStep q cur) (vis, pm, qu)).1) := by
  induction nbs with
  | nil => intro vis pm qu h1 h2 h3; exact ⟨h1, h2, h3⟩
  | cons nb rest ih =>
    intro vis pm qu h1 h2 h3
    have hstep := expandStep_keys q cur vis pm qu nb h1 h2 h3
    simp only [List.foldl_cons]
    have hsplit : expandStep q cur (vis, pm, qu) nb =
        ((expandStep q cur (vis, pm, qu) nb).1,
         (expandStep q cur (vis, pm, qu) nb).2.1,
         (expandStep q cur (vis, pm, qu) nb).2.2) := rfl
    rw [hsplit]
    exact ih _ _ _ hstep.1 hstep.2.1 hstep.2.2

end KeyProofs

/-- C3: the start's key is marked visited exactly when the start is
pushed; a neighbor is pushed (and given a parent entry) if and only
if its quantized key is not yet visited; only the quantized key
decides this, so two states sharing a key are treated as the same
planning node; and processing neighbors preserves that the visited
set and the parent-map keys are duplicate-free (with parent keys
always visited), so a key is inserted and given a parent entry at
most once throughout the search. -/
theorem C3_visited_once {σ α κ : Type} [DecidableEq κ] (q : σ → κ)
    (neighbors : σ → List (σ × α)) (isGoal : σ → Bool) (cost : α → ℝ) :
    (∀ (start : σ) (fuel : ℕ), solve q neighbors isGoal cost start fuel =
      solveLoop q neighbors isGoal cost fuel [start] [q start] []) ∧
    (∀ (cur : σ) (vis : List κ) (pm : List (κ × (σ × α))) (qu : List σ) (s2 : σ) (a : α),
      (q s2 ∉ vis → expandStep q cur (vis, pm, qu) (s2, a) =
        (q s2 :: vis, (q s2, (cur, a)) :: pm, qu ++ [s2])) ∧
      (q s2 ∈ vis → expandStep q cur (vis, pm, qu) (s2, a) = (vis, pm, qu))) ∧
    (∀ (cur : σ) (vis : List κ) (pm : List (κ × (σ × α))) (qu : List σ)
      (s2 s3 : σ) (a b : α), q s2 = q s3 →
      (expandStep q cur (vis, pm, qu) (s2, a) = (vis, pm, qu) ↔
       expandStep q cur (vis, pm, qu) (s3, b) = (vis, pm, qu))) ∧
    (∀ (cur : σ) (nbs : List (σ × α)) (vis : List κ) (pm : List (κ × (σ × α)))
      (qu : List σ),
      vis.Nodup → (pm.map Prod.fst).Nodup → (∀ k ∈ pm.map Prod.fst, k ∈ vis) →
      (nbs.foldl (expandStep q cur) (vis, pm, qu)).1.Nodup ∧
      ((nbs.foldl (expandStep q cur) (vis, pm, qu)).2.1.map Prod.fst).Nodup ∧
      (∀ k ∈ (nbs.foldl (expandStep q cur) (vis, pm, qu)).2.1.map Prod.fst,
        k ∈ (nbs.foldl (expandStep q cur) (vis, pm, qu)).1)) := by
  refine ⟨fun _ _ => rfl, ?_, ?_, ?_⟩
  · intro cur vis pm qu s2 a
    exact ⟨expandStep_pushes q cur vis pm qu s2 a, expandStep_keeps q cur vis pm qu s2 a⟩
  · intro cur vis pm qu s2 s3 a b hq
    rw [expandStep_keeps_iff, expandStep_keeps_iff, hq]
  · intro cur nbs vis pm qu h1 h2 h3
    exact expandFold_keys q cur nbs vis pm qu h1 h2 h3

/-- C3 witness: the key-uniqueness facts, checked on the two-node
concrete instance with one processed neighbor. -/
theorem C3_visited_once_witness :
    ((c1neighbors 0).foldl (expandStep id 0) ([0], [], [])).1.Nodup ∧
    (expandStep (σ := ℕ) (α := Unit) id 0 ([0], [], []) (1, ()) =
      ([1, 0], [(1, (0, ()))], [1])) ∧
    (expandStep (σ := ℕ) (α := Unit) id 0 ([0], [], []) (0, ()) = ([0], [], [])) := by
  refine ⟨?_, ?_, ?_⟩
  · exact ((C3_visited_once (σ := ℕ) (κ := ℕ) id c1neighbors c1goal c1cost).2.2.2
      0 (c1neighbors 0) [0] [] [] (by simp) (by simp) (by simp)).1
  · exact (((C3_visited_once (σ := ℕ) (κ := ℕ) id c1neighbors c1goal c1cost).2.1
      0 [0] [] [] 1 ()).1 (by simp))
  · exact (((C3_visited_once (σ := ℕ) (κ := ℕ) id c1neighbors c1goal c1cost).2.1
      0 [0] [] [] 0 ()).2 (by simp))

-- ===================================================================
-- C6
-- ===================================================================

theorem apply_some_eq (M : ThrustActionModel) (from_ : StateVertex) (a : ThrustAction)
    (s2 : StateVertex) (h : M.apply from_ a = some s2) : s2 = M.successor from_ a := by
  unfold ThrustActionModel.apply at h
  by_cases hc : M.checkConstraints (M.successor from_ a)
  · rw [if_pos hc] at h
    exact (Option.some.inj h).symm
  · rw [if_neg hc] at h
    exact absurd h (by simp)

/-- C6: the successor's collected set is the union of the source's
collected set with the ids of exactly those artifacts lying within
epsilon of the successor's position at the successor's global time;
hence the collected set never shrinks along an edge, and it is
monotone (non-decreasing under inclusion) along every path the solver
returns. -/
theorem C6_collected_monotone :
    (∀ (M : ThrustActionModel) (from_ : StateVertex) (a : ThrustAction),
      (M.successor from_ a).collected_artifacts =
        from_.collected_artifacts ∪
          ((M.wd.artifacts.filter (fun art =>
              MathConfig.normp (art.position.sub (M.successor from_ a).x) 2 ≤
                MathConfig.eps)).map (fun art => art.id)).toFinset ∧
      from_.collected_artifacts ⊆ (M.successor from_ a).collected_artifacts ∧
      (M.apply from_ a = none ∨ M.apply from_ a = some (M.successor from_ a))) ∧
    (∀ (E : EngineSetup) (fuel : ℕ) (res : SolverResult StateVertex ThrustAction),
      E.runSolver fuel = some (some res) →
      List.Chain' (fun u w => u.1.collected_artifacts ⊆ w.1.collected_artifacts)
        res.path) := by
  constructor
  · intro M from_ a
    refine ⟨rfl, Finset.subset_union_left, ?_⟩
    unfold ThrustActionModel.apply
    by_cases hc : M.checkConstraints (M.successor from_ a)
    · right; rw [if_pos hc]
    · left; rw [if_neg hc]
  · intro E fuel res hrun
    have hspec := solveLoop_spec (Quantizer.q E.qcfg) (refNeighbors E.M) E.isGoal
      ThrustAction.cost E.start fuel [E.start] [Quantizer.q E.qcfg E.start] [] res
      (solve_init_inv (Quantizer.q E.qcfg) (refNeighbors E.M) E.start) hrun
    refine List.Chain'.imp ?_ hspec.2.2.1
    intro u w hr
    obtain ⟨b, _, hmem⟩ := hr
    obtain ⟨a2, _, hmap⟩ := List.mem_filterMap.mp hmem
    rw [Option.map_eq_some'] at hmap
    obtain ⟨s2, hs2, heq⟩ := hmap
    rw [Prod.mk.injEq] at heq
    have hw : w.1 = E.M.successor u.1 a2 := by
      rw [← heq.1]
      exact apply_some_eq E.M u.1 a2 s2 hs2
    rw [hw]
    exact Finset.subset_union_left

/-- The trivial engine run: the goal (`k = 0`) holds at the start, so
the solver returns the singleton path at cost 0. -/
theorem E0_run : E0.runSolver 1 =
    some (some ⟨[(E0.start, none)], 0⟩) := rfl

/-- C6 witness: collected sets never shrink at the trivial scenario,
and the returned singleton path is monotone. -/
theorem C6_collected_monotone_witness :
    sv0.collected_artifacts ⊆ (tam0.successor sv0 act0).collected_artifacts ∧
    List.Chain' (fun u w => u.1.collected_artifacts ⊆ w.1.collected_artifacts)
      [(E0.start, (none : Option ThrustAction))] := by
  refine ⟨(C6_collected_monotone.1 tam0 sv0 act0).2.1, ?_⟩
  have h := C6_collected_monotone.2 E0 1 ⟨[(E0.start, none)], 0⟩ E0_run
  exact h

-- ===================================================================
-- C8
-- ===================================================================

/-- C8: `compute()` raises `SimulationFailed` exactly when the solver
returns no path, and stores the result (resetting the step counter)
otherwise; `step()` past the last path element raises
`SimulationCompleted`. -/
theorem C8_compute_step (E : EngineSetup) (fuel : ℕ) (wd : WorldData) :
    ((E.compute fuel = some (Except.error SimError.simulationFailed)) ↔
      E.runSolver fuel = some none) ∧
    (∀ res, E.runSolver fuel = some (some res) →
      E.compute fuel = some (Except.ok (res, 0))) ∧
    (∀ (res : SolverResult StateVertex ThrustAction) (current_step : ℕ),
      res.path.length ≤ current_step →
      stepSim wd (some res) current_step = Except.error SimError.simulationCompleted) := by
  refine ⟨?_, ?_, ?_⟩
  · unfold EngineSetup.compute
    cases hrun : E.runSolver fuel with
    | none => simp
    | some r =>
      cases r with
      | none => simp
      | some res => simp
  · intro res hrun
    unfold EngineSetup.compute
    rw [hrun]
    rfl
  · intro res current_step h
    unfold stepSim
    dsimp only
    rw [dif_neg (by omega)]

/-- C8 witness: on the trivial run the result is stored with step
counter 0, and stepping past the single path element raises
`SimulationCompleted`. -/
theorem C8_compute_step_witness :
    E0.compute 1 = some (Except.ok ((⟨[(E0.start, none)], 0⟩ :
      SolverResult StateVertex ThrustAction), 0)) ∧
    stepSim E0.M.wd (some ⟨[(E0.start, none)], 0⟩) 1 =
      Except.error SimError.simulationCompleted := by
  refine ⟨?_, ?_⟩
  · exact (C8_compute_step E0 1 E0.M.wd).2.1 _ E0_run
  · exact (C8_compute_step E0 1 E0.M.wd).2.2 ⟨[(E0.start, none)], 0⟩ 1 (by simp)

end

end ISpec
